import Mathlib

/-!
# Verification of the event-horizon handshake/certificate core

A shallow embedding of the repository's certificate verification code
(`src/cert/cert.go`) and handshake manager (`src/unnamed/part_000`,
package `nebula`), together with theorems settling the frozen claims.

Modelling conventions:
* Go byte slices (`[]byte`, `net.IP`, `net.IPMask`) are `List Nat`
  (each element a byte value).
* Go strings that are manipulated character-wise (the hex `Issuer`
  field) are `List Nat` of character codes; opaque strings (`Name`,
  groups) stay `String`.
* `time.Time` values are modelled by their Unix-seconds `Int` value;
  the certificate wire format is second-precision and the code only
  compares instants (`After`/`Before`), which ordering on `Int`
  captures.
* Cryptographic primitives (SHA-256, Ed25519, ECDSA) and protobuf byte
  serialization live in external libraries; they are parameters
  (oracles) of the embedded functions.  The protobuf round-trip is
  modelled as the identity on the `RawNebulaCertificate` structure.
* Go panics (out-of-range slice indexing, `ed25519.Sign` on a key of
  the wrong length) are explicit outcomes of the embedded functions.
-/

namespace EventHorizon

/-! ## Bytes, big-endian words, ip2int / int2ip (src/cert/cert.go:676-687) -/

/-- `binary.BigEndian.Uint32` on the first four bytes of a list. -/
def beUint32 : List Nat → Nat
  | a :: b :: c :: d :: _ => ((a * 256 + b) * 256 + c) * 256 + d
  | _ => 0

/-- `func ip2int(ip []byte) uint32` (cert.go:676): a 16-byte address
contributes its last four bytes, otherwise the four bytes are read
big-endian. -/
def ip2int (ip : List Nat) : Nat :=
  if ip.length = 16 then beUint32 (ip.drop 12) else beUint32 ip

/-- `func int2ip(nn uint32) net.IP` (cert.go:683): four big-endian bytes. -/
def int2ip (nn : Nat) : List Nat :=
  [nn / 2 ^ 24 % 256, nn / 2 ^ 16 % 256, nn / 2 ^ 8 % 256, nn % 256]

/-- `func isZeros(b []byte) bool` (cert.go:667). -/
def isZeros (b : List Nat) : Bool := b.all (· == 0)

/-! ## Hex encoding (Go `encoding/hex`, used for the Issuer field)

`hex.EncodeToString` / `hex.DecodeString` from the Go standard library,
on character-code lists.  `hexDecode` mirrors Go's behaviour of
returning the bytes decoded before the first error (an invalid digit or
a dangling final digit): `getRawDetails` discards the error value. -/

/-- Lowercase hex digit character code for a nibble (`0-9a-f`). -/
def hexDigitCode (n : Nat) : Nat := if n < 10 then 48 + n else 87 + n

/-- `hex.EncodeToString`: two lowercase digits per byte. -/
def hexEncode (bs : List Nat) : List Nat :=
  bs.flatMap fun b => [hexDigitCode (b / 16), hexDigitCode (b % 16)]

/-- Go `fromHexChar`: accepts `0-9`, `a-f`, `A-F`. -/
def fromHexCode (c : Nat) : Option Nat :=
  if 48 ≤ c ∧ c ≤ 57 then some (c - 48)
  else if 97 ≤ c ∧ c ≤ 102 then some (c - 87)
  else if 65 ≤ c ∧ c ≤ 70 then some (c - 55)
  else none

/-- `hex.DecodeString` with the error discarded (as `getRawDetails`
does): decoding stops at the first invalid digit or odd trailing
digit, returning the bytes decoded so far. -/
def hexDecode : List Nat → List Nat
  | a :: b :: rest =>
    match fromHexCode a, fromHexCode b with
    | some x, some y => (16 * x + y) :: hexDecode rest
    | _, _ => []
  | _ => []

/-- A character code of a canonical (lowercase) hex digit. -/
def isLowerHexCode (c : Nat) : Bool :=
  (48 ≤ c && c ≤ 57) || (97 ≤ c && c ≤ 102)

/-! ## Certificate data model (src/cert/cert.go:26-57) -/

/-- The protobuf `Curve` enum is an `int32`; `Curve_CURVE25519 = 0` is
its zero value and `Curve_P256 = 1`.  Other numerals are possible
(unsupported) values of the Go type. -/
abbrev Curve := Nat

def Curve_CURVE25519 : Curve := 0
def Curve_P256 : Curve := 1

/-- `net.IPNet`: an address together with a mask, both byte lists. -/
structure IPNet where
  ip : List Nat
  mask : List Nat
deriving DecidableEq, Repr

/-- `NebulaCertificateDetails` (cert.go:42).  `InvertedGroups` is the
`map[string]struct{}` of groups, modelled as the list of its keys with
membership semantics. -/
structure NebulaCertificateDetails where
  name : String
  ips : List IPNet
  subnets : List IPNet
  groups : List String
  notBefore : Int
  notAfter : Int
  publicKey : List Nat
  isCA : Bool
  issuer : List Nat
  invertedGroups : List String
  curve : Curve
deriving DecidableEq, Repr

/-- `NebulaCertificate` (cert.go:28) without its two atomic cache
pointers, which are carried separately as `Caches` state. -/
structure NebulaCertificate where
  details : NebulaCertificateDetails
  signature : List Nat
deriving DecidableEq, Repr

/-- The two cache fields of `NebulaCertificate` (cert.go:33-39):
the memoized hex sha256 sum and the memoized verified public key. -/
structure Caches where
  sha : Option (List Nat)
  sigKey : Option (List Nat)
deriving DecidableEq, Repr

/-- Fresh certificate caches (both atomic pointers nil). -/
def Caches.pristine : Caches := ⟨none, none⟩

/-! ## Raw (wire-level) certificate (RawNebulaCertificate protobuf) -/

/-- `RawNebulaCertificateDetails`: the protobuf message produced by
`getRawDetails` (cert.go:465).  `ips`/`subnets` are flat lists of
32-bit words (address, mask alternating); `issuer` is raw bytes. -/
structure RawNebulaCertificateDetails where
  name : String
  ips : List Nat
  subnets : List Nat
  groups : List String
  notBefore : Int
  notAfter : Int
  publicKey : List Nat
  isCA : Bool
  issuer : List Nat
  curve : Curve
deriving DecidableEq, Repr

/-- `RawNebulaCertificate`: `Details` is a message pointer in Go and may
be nil on the wire. -/
structure RawNebulaCertificate where
  details : Option RawNebulaCertificateDetails
  signature : List Nat
deriving DecidableEq, Repr

/-- `getRawDetails` (cert.go:465-490): flatten the address pairs with
`ip2int`, decode the hex issuer (error ignored), keep everything else. -/
def getRawDetails (nc : NebulaCertificate) : RawNebulaCertificateDetails :=
  { name := nc.details.name
    ips := nc.details.ips.flatMap fun ipNet => [ip2int ipNet.ip, ip2int ipNet.mask]
    subnets := nc.details.subnets.flatMap fun ipNet => [ip2int ipNet.ip, ip2int ipNet.mask]
    groups := nc.details.groups
    notBefore := nc.details.notBefore
    notAfter := nc.details.notAfter
    publicKey := nc.details.publicKey
    isCA := nc.details.isCA
    issuer := hexDecode nc.details.issuer
    curve := nc.details.curve }

/-- `Marshal` (cert.go:493-500) up to the external protobuf byte
serialization, which is modelled as the identity on this structure. -/
def marshalCert (nc : NebulaCertificate) : RawNebulaCertificate :=
  { details := some (getRawDetails nc), signature := nc.signature }

/-- The unmarshal loops of `UnmarshalNebulaCertificate`
(cert.go:119-133): consecutive word pairs become `IPNet`s
(even index: address, odd index: mask). -/
def pairUp : List Nat → List IPNet
  | a :: b :: rest => ⟨int2ip a, int2ip b⟩ :: pairUp rest
  | _ => []

/-- `UnmarshalNebulaCertificate` (cert.go:72-140) after the external
protobuf decode (modelled as identity, so the leading
`len(b) == 0` / proto-error checks are outside the model):
nil details, odd ip/subnet word counts and a short public key are
errors; the issuer is re-encoded as lowercase hex and
`InvertedGroups` is rebuilt from the groups. -/
def unmarshalNebulaCertificate (rc : RawNebulaCertificate) :
    Except String NebulaCertificate :=
  match rc.details with
  | none => .error "encoded Details was nil"
  | some rd =>
    if rd.ips.length % 2 ≠ 0 then
      .error "encoded IPs should be in pairs, an odd number was found"
    else if rd.subnets.length % 2 ≠ 0 then
      .error "encoded Subnets should be in pairs, an odd number was found"
    else if rd.publicKey.length < 32 then
      .error "Public key was fewer than 32 bytes"
    else
      .ok
        { details :=
            { name := rd.name
              ips := pairUp rd.ips
              subnets := pairUp rd.subnets
              groups := rd.groups
              notBefore := rd.notBefore
              notAfter := rd.notAfter
              publicKey := rd.publicKey
              isCA := rd.isCA
              issuer := hexEncode rd.issuer
              invertedGroups := rd.groups
              curve := rd.curve }
          signature := rc.signature }

/-! ## Expired (cert.go:254-256) -/

/-- `Expired(t)`: true when the certificate is too young
(`NotBefore.After(t)`) or too old (`NotAfter.Before(t)`). -/
def Expired (nc : NebulaCertificate) (t : Int) : Bool :=
  t < nc.details.notBefore || nc.details.notAfter < t

/-! ## Copy (cert.go:581-625) -/

/-- `Copy()`: the struct literal copies every `Details` field except
`Curve`, which is left at the Go zero value `Curve_CURVE25519` (0),
and the fresh certificate's cache pointers are nil.  Slices and the
group map are deep-copied, which value semantics renders as reuse. -/
def Copy (nc : NebulaCertificate) : NebulaCertificate :=
  { details :=
      { name := nc.details.name
        ips := nc.details.ips
        subnets := nc.details.subnets
        groups := nc.details.groups
        notBefore := nc.details.notBefore
        notAfter := nc.details.notAfter
        publicKey := nc.details.publicKey
        isCA := nc.details.isCA
        issuer := nc.details.issuer
        invertedGroups := nc.details.invertedGroups
        curve := Curve_CURVE25519 }
    signature := nc.signature }

/-! ## net.IP / net.IPNet helpers (Go standard library `net`)

`netMatch` calls `(*net.IPNet).Contains`, which is Go standard-library
code; it is modelled here from its source (`To4` normalization,
`networkNumberAndMask`, masked byte comparison). -/

/-- `net.IP.To4`: a 4-byte address is itself; a 16-byte IPv4-mapped
address (`::ffff:a.b.c.d`) yields its last four bytes; otherwise nil. -/
def to4 (ip : List Nat) : Option (List Nat) :=
  if ip.length = 4 then some ip
  else if ip.length = 16 ∧ isZeros (ip.take 10) ∧ ip[10]? = some 255 ∧ ip[11]? = some 255 then
    some (ip.drop 12)
  else none

/-- `networkNumberAndMask` from the Go `net` package: normalize the
network address with `To4`, and truncate a 16-byte mask to its last
four bytes when the address is 4 bytes.  `none` models the Go
`(nil, nil)` failure return. -/
def networkNumberAndMask (n : IPNet) : Option (List Nat × List Nat) :=
  let ip? : Option (List Nat) :=
    match to4 n.ip with
    | some x => some x
    | none => if n.ip.length = 16 then some n.ip else none
  match ip? with
  | none => none
  | some ip =>
    if n.mask.length = 4 then
      if ip.length ≠ 4 then none else some (ip, n.mask)
    else if n.mask.length = 16 then
      some (ip, if ip.length = 4 then n.mask.drop 12 else n.mask)
    else none

/-- `(*net.IPNet).Contains(ip)`: after normalization, every address
byte must agree with the network byte under the mask.  The zip
realizes the index loop; `networkNumberAndMask` guarantees the mask
has the length of the network address, and a `(nil, nil)` failure
makes the length test fail for every nonempty query (an empty query
address against the nil network vacuously passes, as in Go). -/
def ipnetContains (n : IPNet) (ipIn : List Nat) : Bool :=
  let nn : List Nat := ((networkNumberAndMask n).map Prod.fst).getD []
  let m : List Nat := ((networkNumberAndMask n).map Prod.snd).getD []
  let ip : List Nat := (to4 ipIn).getD ipIn
  if ip.length ≠ nn.length then false
  else (ip.zip (nn.zip m)).all fun p => p.1 &&& p.2.2 == p.2.1 &&& p.2.2

/-! ## maskTo4 / maskContains / netMatch (cert.go:627-665)

`maskContains` runs its comparison loop up to `len(caMask)` — the
length of the ORIGINAL ca mask — while indexing the 4-byte normalized
slices `caM` and `cM`.  For a 16-byte IPv4-mapped ca mask the loop
therefore indexes past the end of a 4-byte slice and Go panics with an
index-out-of-range; the panic is modelled as `none`. -/

/-- `maskTo4` (cert.go:655-665): same shape as `To4`. -/
def maskTo4 (ip : List Nat) : Option (List Nat) :=
  if ip.length = 4 then some ip
  else if ip.length = 16 ∧ isZeros (ip.take 10) ∧ ip[10]? = some 255 ∧ ip[11]? = some 255 then
    some (ip.drop 12)
  else none

/-- The `for i := 0; i < n; i++ { if caM[i] > cM[i] ... }` loop of
`maskContains`, checking indices `i, i+1, …, i+fuel-1`; an
out-of-range index is a Go panic (`none`). -/
def maskCmpLoop (caM cM : List Nat) : Nat → Nat → Option Bool
  | _, 0 => some true
  | i, fuel + 1 =>
    match caM[i]?, cM[i]? with
    | some a, some b => if b < a then some false else maskCmpLoop caM cM (i + 1) fuel
    | _, _ => none

/-- `maskContains(caMask, certMask)` (cert.go:637-653); `none` is the
index-out-of-range panic. -/
def maskContains (caMask certMask : List Nat) : Option Bool :=
  match maskTo4 caMask, maskTo4 certMask with
  | some caM, some cM => maskCmpLoop caM cM 0 caMask.length
  | _, _ => some false

/-- `netMatch(certIp, rootIps)` (cert.go:627-635): some root entry
contains the address and its mask; `&&` short-circuits, so
`maskContains` (and its possible panic) is only reached when
`Contains` succeeds. -/
def netMatch (certIp : IPNet) : List IPNet → Option Bool
  | [] => some false
  | n :: rest =>
    if ipnetContains n certIp.ip then
      match maskContains n.mask certIp.mask with
      | none => none
      | some true => some true
      | some false => netMatch certIp rest
    else netMatch certIp rest

/-! ## CheckRootConstrains (cert.go:308-347) -/

/-- The constraint-specific errors of `CheckRootConstrains`. -/
inductive ConstraintError where
  | expiresAfterSigner
  | validBeforeSigner
  | groupNotPresent (g : String)
  | ipOutside (ip : IPNet)
  | subnetOutside (s : IPNet)
deriving DecidableEq, Repr

/-- Outcome of a constraint check: ok, a specific error, or a panic
propagated out of `maskContains`. -/
inductive CheckResult where
  | ok
  | fail (e : ConstraintError)
  | panics
deriving DecidableEq, Repr

/-- The group loop (cert.go:321-325): the first certificate group not
present on the signing ca. -/
def firstBadGroup (signerInv : List String) (groups : List String) : Option String :=
  groups.find? fun g => ¬ signerInv.contains g

/-- The ip/subnet loops (cert.go:330-334, 339-343): the first
certificate entry that fails `netMatch` against the root entries, or a
panic. -/
def checkNets (rootNets : List IPNet) : List IPNet → Option (Option IPNet)
  | [] => some none
  | ip :: rest =>
    match netMatch ip rootNets with
    | none => none
    | some true => checkNets rootNets rest
    | some false => some (some ip)

/-- `CheckRootConstrains(signer)` (cert.go:308-347), checks in source
order: leaf expiry within the signer's, leaf start within the
signer's, groups (when the signer restricts them), ips, subnets. -/
def CheckRootConstrains (signer nc : NebulaCertificate) : CheckResult :=
  if signer.details.notAfter < nc.details.notAfter then .fail .expiresAfterSigner
  else if nc.details.notBefore < signer.details.notBefore then .fail .validBeforeSigner
  else
    match
      if signer.details.invertedGroups.isEmpty then none
      else firstBadGroup signer.details.invertedGroups nc.details.groups with
    | some g => .fail (.groupNotPresent g)
    | none =>
      match
        if signer.details.ips.isEmpty then some none
        else checkNets signer.details.ips nc.details.ips with
      | none => .panics
      | some (some ip) => .fail (.ipOutside ip)
      | some none =>
        match
          if signer.details.subnets.isEmpty then some none
          else checkNets signer.details.subnets nc.details.subnets with
        | none => .panics
        | some (some s) => .fail (.subnetOutside s)
        | some none => .ok

/-! ## Signature checking and the verify pipeline (cert.go:213-305)

The elliptic-curve signature verification itself is external crypto; it
is a parameter `sigOk curve key rawDetails signature`.  `CheckSignature`
marshals the raw details (identity at this level) and dispatches on the
curve; the `default: return false` arm covers every curve value other
than the two supported ones. -/

/-- `CheckSignature(key)` (cert.go:214-230). -/
def CheckSignature
    (sigOk : Curve → List Nat → RawNebulaCertificateDetails → List Nat → Bool)
    (nc : NebulaCertificate) (key : List Nat) : Bool :=
  if nc.details.curve = Curve_CURVE25519 ∨ nc.details.curve = Curve_P256 then
    sigOk nc.details.curve key (getRawDetails nc) nc.signature
  else false

/-- `checkSignatureWithCache(key, useCache)` (cert.go:234-251): with
the cache on, a previously stored verified key short-circuits into a
byte comparison; a fresh successful verification stores the key. -/
def checkSignatureWithCache
    (sigOk : Curve → List Nat → RawNebulaCertificateDetails → List Nat → Bool)
    (nc : NebulaCertificate) (key : List Nat) (caches : Caches) (useCache : Bool) :
    Bool × Caches :=
  if !useCache then (CheckSignature sigOk nc key, caches)
  else
    match caches.sigKey with
    | some v => (v == key, caches)
    | none =>
      let verified := CheckSignature sigOk nc key
      if verified then (true, { caches with sigKey := some key }) else (false, caches)

/-- `Sha256Sum` (cert.go:512-520): hex sha-256 of the marshaled
certificate; the hash itself is the external parameter `hash`. -/
def Sha256Sum (hash : RawNebulaCertificate → List Nat) (nc : NebulaCertificate) : List Nat :=
  hash (marshalCert nc)

/-- `sha256SumWithCache(useCache)` (cert.go:524-539). -/
def sha256SumWithCache (hash : RawNebulaCertificate → List Nat)
    (nc : NebulaCertificate) (caches : Caches) (useCache : Bool) :
    List Nat × Caches :=
  if !useCache then (Sha256Sum hash nc, caches)
  else
    match caches.sha with
    | some s => (s, caches)
    | none =>
      let s := Sha256Sum hash nc
      (s, { caches with sha := some s })

/-- The error kinds of the verify pipeline (errors.go of the cert
package; the named values `ErrBlockListed`, `ErrRootExpired`,
`ErrExpired`, `ErrSignatureMismatch` and the `GetCAForCert` failures,
plus the constraint errors). -/
inductive CertError where
  | blockListed
  | rootNotFound
  | rootExpired
  | expired
  | signatureMismatch
  | constraint (e : ConstraintError)
deriving DecidableEq, Repr

/-- Result of `verify`: Go's `(true, nil)`, `(false, err)`, or a panic
propagated from `CheckRootConstrains`. -/
inductive VerifyOutcome where
  | ok
  | fail (e : CertError)
  | panics
deriving DecidableEq, Repr

/-- The CA pool (§3 "CA Pool" of the spec): CA certificates indexed by
their hex fingerprint, plus a blocklist of fingerprint strings.  The
`CAPool` type itself lives outside `src/`. -/
structure CAPool where
  cas : List (List Nat × NebulaCertificate)
  blocklist : List (List Nat)
deriving DecidableEq, Repr

/-- Association-list lookup (first binding wins), the model of a Go map
read. -/
def lookupCA (m : List (List Nat × NebulaCertificate)) (k : List Nat) :
    Option NebulaCertificate :=
  (m.find? fun p => p.1 == k).map Prod.snd

/-- Modelled from the spec: `CAPool.GetCAForCert` is not under `src/`.
Per §4.A step 2, the signer is resolved via `ca_pool.get(issuer_hex)`,
failing with `RootNotFound` both when no issuer is set and when the
issuer is unknown. -/
def GetCAForCert (ncp : CAPool) (nc : NebulaCertificate) :
    Except CertError NebulaCertificate :=
  if nc.details.issuer = [] then .error .rootNotFound
  else
    match lookupCA ncp.cas nc.details.issuer with
    | some signer => .ok signer
    | none => .error .rootNotFound

/-- Modelled from the spec: `CAPool.isBlocklistedWithCache` is not
under `src/`.  Per §4.A step 1 and §3, the certificate's fingerprint
(its cached sha-256 sum) is looked up in the blocklist. -/
def isBlocklistedWithCache (hash : RawNebulaCertificate → List Nat)
    (ncp : CAPool) (nc : NebulaCertificate) (caches : Caches) (useCache : Bool) :
    Bool × Caches :=
  let hc := sha256SumWithCache hash nc caches useCache
  (ncp.blocklist.contains hc.1, hc.2)

/-- `verify(t, ncp, useCache)` (cert.go:278-305): blocklist, signer
resolution, signer expiry, leaf expiry, signature, root constraints —
short-circuiting with the distinct error kinds.  Returns the outcome
together with the updated caches. -/
def verify (hash : RawNebulaCertificate → List Nat)
    (sigOk : Curve → List Nat → RawNebulaCertificateDetails → List Nat → Bool)
    (t : Int) (ncp : CAPool) (nc : NebulaCertificate) (caches : Caches)
    (useCache : Bool) : VerifyOutcome × Caches :=
  let bl := isBlocklistedWithCache hash ncp nc caches useCache
  if bl.1 then (.fail .blockListed, bl.2)
  else
    match GetCAForCert ncp nc with
    | .error e => (.fail e, bl.2)
    | .ok signer =>
      if Expired signer t then (.fail .rootExpired, bl.2)
      else if Expired nc t then (.fail .expired, bl.2)
      else
        let sv := checkSignatureWithCache sigOk nc signer.details.publicKey bl.2 useCache
        if !sv.1 then (.fail .signatureMismatch, sv.2)
        else
          match CheckRootConstrains signer nc with
          | .panics => (.panics, sv.2)
          | .fail e => (.fail (.constraint e), sv.2)
          | .ok => (.ok, sv.2)

/-- `Verify` (cert.go:259-261): `verify` without the cache. -/
def Verify (hash : RawNebulaCertificate → List Nat)
    (sigOk : Curve → List Nat → RawNebulaCertificateDetails → List Nat → Bool)
    (t : Int) (ncp : CAPool) (nc : NebulaCertificate) (caches : Caches) :
    VerifyOutcome × Caches :=
  verify hash sigOk t ncp nc caches false

/-- `VerifyWithCache` (cert.go:267-269): `verify` with the cache. -/
def VerifyWithCache (hash : RawNebulaCertificate → List Nat)
    (sigOk : Curve → List Nat → RawNebulaCertificateDetails → List Nat → Bool)
    (t : Int) (ncp : CAPool) (nc : NebulaCertificate) (caches : Caches) :
    VerifyOutcome × Caches :=
  verify hash sigOk t ncp nc caches true

/-! ## Sign (cert.go:143-183) -/

/-- Outcome of `Sign`: success with a signature, an error return, or a
panic. -/
inductive SignOutcome where
  | ok (sig : List Nat)
  | err (msg : String)
  | panics
deriving DecidableEq, Repr

/-- `Sign(curve, key)` (cert.go:143-183).  The Curve25519 arm calls
`ed25519.Sign(ed25519.PrivateKey(key), b)`; the Go standard library's
`ed25519.Sign` documents that it panics when `len(privateKey)` is not
`PrivateKeySize` (64).  The P-256 arm builds an ECDSA key from any
byte string and calls `ecdsa.SignASN1`, which can return an error;
both signing primitives are external oracles.  Any other curve value
falls to the `default` arm and returns an error. -/
def Sign (edSign : List Nat → RawNebulaCertificateDetails → List Nat)
    (ecdsaSign : List Nat → RawNebulaCertificateDetails → Except String (List Nat))
    (nc : NebulaCertificate) (curve : Curve) (key : List Nat) : SignOutcome :=
  if curve ≠ nc.details.curve then
    .err "curve in cert and private key supplied don't match"
  else if curve = Curve_CURVE25519 then
    if key.length = 64 then .ok (edSign key (getRawDetails nc)) else .panics
  else if curve = Curve_P256 then
    match ecdsaSign key (getRawDetails nc) with
    | .ok sig => .ok sig
    | .error e => .err e
  else .err "invalid curve"

/-! ## hsTimeout (src/unnamed/part_000:466-468) -/

/-- `hsTimeout(tries int, interval time.Duration)`: note the integer
division `tries / 2` happens first.  `tries` is a non-negative retry
count (modelled as `Nat`, on which Go's truncated division agrees with
`Nat` division); durations are `Int` nanoseconds. -/
def hsTimeout (tries : Nat) (interval : Int) : Int :=
  (tries / 2 : Nat) * (2 * interval + ((tries : Int) - 1) * interval)

/-! ## HostInfo and the host-map (src/unnamed/part_000; hostmap.go is
not under `src/`)

`HostInfo` carries the fields the handshake manager reads and writes.
Go stores `*HostInfo` pointers; `hiId` models pointer identity (the
`existingIndex != hostinfo` comparison), and an in-place mutation of a
HostInfo is modelled by rewriting every map binding that holds the
same `hiId`. -/

/-- The remote-address list of a pending host (the `RemoteList` type is
not under `src/`).  Modelled from the spec: §3 "HostInfo" describes
`remotes` as an ordered deduplicated list of UDP endpoints plus the
relay peers; `Len`/`ForEach` (filtered by the immutable preferred
ranges) expose exactly the endpoints transmitted to, which the model
takes as `addrs`. -/
structure RemoteList where
  addrs : List Nat
  relays : List Nat
deriving DecidableEq, Repr

/-- Per-peer tunnel state (§3 "HostInfo"; the `HostInfo` struct itself
lives in hostmap.go outside `src/`, its fields are read from the
handshake-manager source).  `handshakePacket` is the
`map[uint8][]byte` of staged packets; `packetStore` holds abstract
queued-packet identifiers. -/
structure HostInfo where
  hiId : Nat
  vpnIp : Nat
  localIndexId : Nat
  remoteIndexId : Nat
  lastHandshakeTime : Nat
  handshakePacket : List (Nat × List Nat)
  packetStore : List Nat
  handshakeComplete : Bool
  handshakeReady : Bool
  handshakeCounter : Nat
  remotes : Option RemoteList
deriving DecidableEq, Repr

/-- Go map read `h.HandshakePacket[i]`: a missing stage yields the nil
slice, equal as bytes to the empty slice. -/
def hsPacket (h : HostInfo) (i : Nat) : List Nat :=
  ((h.handshakePacket.find? fun p => p.1 == i).map Prod.snd).getD []

/-- Association-list primitives modelling Go map reads and writes on
`uint32`-keyed HostInfo maps. -/
def lookupHI (m : List (Nat × HostInfo)) (k : Nat) : Option HostInfo :=
  (m.find? fun p => p.1 == k).map Prod.snd

def eraseHI (m : List (Nat × HostInfo)) (k : Nat) : List (Nat × HostInfo) :=
  m.filter fun p => p.1 ≠ k

def insertHI (m : List (Nat × HostInfo)) (k : Nat) (v : HostInfo) :
    List (Nat × HostInfo) :=
  (k, v) :: eraseHI m k

/-- One host-map table (§3 "Host-Map"): three indices over the same
HostInfo records. -/
structure HostMap where
  hosts : List (Nat × HostInfo)
  indexes : List (Nat × HostInfo)
  remoteIndexes : List (Nat × HostInfo)
deriving DecidableEq, Repr

/-- Modelled from the spec: `HostMap.unlockedDeleteHostInfo` (and
`DeleteHostInfo`) live in hostmap.go outside `src/`; per §4.B the
deletion removes the HostInfo from all three indices and is
idempotent. -/
def unlockedDeleteHostInfo (m : HostMap) (h : HostInfo) : HostMap :=
  { hosts := eraseHI m.hosts h.vpnIp
    indexes := eraseHI m.indexes h.localIndexId
    remoteIndexes := eraseHI m.remoteIndexes h.remoteIndexId }

/-- Modelled from the spec: `HostMap.addHostInfo` lives in hostmap.go
outside `src/`; per §4.B the promotion path installs the HostInfo in
all three tables. -/
def addHostInfo (m : HostMap) (h : HostInfo) : HostMap :=
  { hosts := insertHI m.hosts h.vpnIp h
    indexes := insertHI m.indexes h.localIndexId h
    remoteIndexes := insertHI m.remoteIndexes h.remoteIndexId h }

/-- In-place mutation of the object `h` seen through every aliasing map
binding (same `hiId`). -/
def updateAlias (m : List (Nat × HostInfo)) (h : HostInfo) : List (Nat × HostInfo) :=
  m.map fun p => if p.2.hiId = h.hiId then (p.1, h) else p

def hostMapUpdateAlias (m : HostMap) (h : HostInfo) : HostMap :=
  { hosts := updateAlias m.hosts h
    indexes := updateAlias m.indexes h
    remoteIndexes := updateAlias m.remoteIndexes h }

/-! ## CheckAndComplete (src/unnamed/part_000:296-364) -/

/-- The handshake coordination errors (part_000:278-283). -/
inductive CacError where
  | alreadySeen
  | existingHostInfo
  | localIndexCollision
  | existingHandshake
deriving DecidableEq, Repr

/-- Result of `CheckAndComplete`: both host maps, the possibly spliced
`hostinfo` argument, the returned `*HostInfo`, and the error. -/
structure CacResult where
  main : HostMap
  pending : HostMap
  hostinfo : HostInfo
  returned : Option HostInfo
  err : Option CacError
deriving DecidableEq, Repr

/-- The final eviction-and-install step of `CheckAndComplete`
(part_000:355-363): the displaced main entry `existing?` (Go's
`existingHostInfo` variable) is removed from all three main indices,
then the new HostInfo is installed. -/
def cacFinish (main pending : HostMap) (hostinfo : HostInfo)
    (existing? : Option HostInfo) : CacResult :=
  let main' :=
    match existing? with
    | some e =>
      { hosts := eraseHI main.hosts e.vpnIp
        indexes := eraseHI main.indexes e.localIndexId
        remoteIndexes := eraseHI main.remoteIndexes e.remoteIndexId }
    | none => main
  ⟨addHostInfo main' hostinfo, pending, hostinfo, existing?, none⟩

/-- The tail of `CheckAndComplete` after the collision checks
(part_000:339-353); the remote-index shadow check at part_000:330-337
only logs and is elided.  The pending-race check either yields
`ExistingHandshake` or, under `overwrite`, splices the pending
packet store onto the new HostInfo and deletes the pending entry. -/
def cacRest2 (main pending : HostMap) (hostinfo : HostInfo) (overwrite : Bool)
    (existing? : Option HostInfo) : CacResult :=
  match lookupHI pending.hosts hostinfo.vpnIp with
  | some p =>
    if !overwrite then ⟨main, pending, hostinfo, some p, some .existingHandshake⟩
    else
      let hostinfo' := { hostinfo with packetStore := hostinfo.packetStore ++ p.packetStore }
      cacFinish main (unlockedDeleteHostInfo pending p) hostinfo' existing?
  | none => cacFinish main pending hostinfo existing?

/-- The tail of `CheckAndComplete` after the main-table host check
(part_000:318-328): local-index collision against the main table, then
against the pending table for a *different* HostInfo (pointer
inequality, modelled by `hiId`). -/
def cacRest (main pending : HostMap) (hostinfo : HostInfo) (overwrite : Bool)
    (existing? : Option HostInfo) : CacResult :=
  match lookupHI main.indexes hostinfo.localIndexId with
  | some ei => ⟨main, pending, hostinfo, some ei, some .localIndexCollision⟩
  | none =>
    match lookupHI pending.indexes hostinfo.localIndexId with
    | some ei =>
      if ei.hiId ≠ hostinfo.hiId then
        ⟨main, pending, hostinfo, some ei, some .localIndexCollision⟩
      else cacRest2 main pending hostinfo overwrite existing?
    | none => cacRest2 main pending hostinfo overwrite existing?

/-- `CheckAndComplete(hostinfo, handshakePacket, overwrite, f)`
(part_000:296-364), in source order: delayed-duplicate and
newer-handshake checks against the main table, local-index collision
checks against main then pending, the remote-index shadow check (log
only), the pending-race check (with the packet-store splice under
`overwrite`), then eviction of the displaced main entry and
installation of the new HostInfo. -/
def CheckAndComplete (main pending : HostMap) (hostinfo : HostInfo)
    (handshakePacket : Nat) (overwrite : Bool) : CacResult :=
  match lookupHI main.hosts hostinfo.vpnIp with
  | some e =>
    if hsPacket hostinfo handshakePacket == hsPacket e handshakePacket then
      ⟨main, pending, hostinfo, some e, some .alreadySeen⟩
    else if hostinfo.lastHandshakeTime ≤ e.lastHandshakeTime then
      ⟨main, pending, hostinfo, some e, some .existingHostInfo⟩
    else cacRest main pending hostinfo overwrite (some e)
  | none => cacRest main pending hostinfo overwrite none

/-! ## Timer wheel and handleOutbound (src/unnamed/part_000:105-265) -/

/-- `HandshakeConfig` (part_000:36-43): the interval in nanoseconds,
the retry bound, and the relay switch. -/
structure HandshakeConfig where
  tryInterval : Int
  retries : Nat
  useRelays : Bool
deriving DecidableEq, Repr

/-- Modelled from the spec: `SystemTimerWheel.Add` is not under
`src/`.  Per §4.C the wheel guarantees an entry fires no earlier than
its duration and §4.D step 4 states that re-arming at a zero duration
schedules one tick (`try_interval`); the wheel state is the list of
scheduled `(vpn_ip, effective delay)` entries, a requested duration
below one tick being raised to one tick. -/
def timerWheelAdd (wheel : List (Nat × Int)) (tick : Int) (vpnIp : Nat)
    (d : Int) : List (Nat × Int) :=
  wheel ++ [(vpnIp, if d < tick then tick else d)]

/-- The observable outcome of one `handleOutbound` call: the pending
table, the post-state of the looked-up HostInfo, the handshake packets
sent directly (`(packet, udp address)` pairs), the lighthouse server
queries issued, the relay-path messages, and the timer wheel. -/
structure HOResult where
  pending : HostMap
  hostinfo : Option HostInfo
  sent : List (List Nat × Nat)
  lhQueries : List Nat
  relayMsgs : List Nat
  wheel : List (Nat × Int)
deriving DecidableEq, Repr

/-- `handleOutbound(vpnIp, f, lighthouseTriggered)`
(part_000:105-265).  `queryCache` is the lighthouse cache oracle
(§4.F); `relayEffects` abstracts the relay block (part_000:189-255),
whose callees (`AddRelay`, `QueryRelayForByIp`, the main host-map)
are not under `src/` — it yields the relay-path messages and touches
neither the counter, the pending table nor the wheel, which is all the
claims constrain.  Control flow in source order: missing host, raced
completion (delete from pending), not yet ready (re-arm only), timed
out (delete from pending), the lighthouse fast-path guard, the cache
fill, the short-circuit server query, the direct transmissions, the
relay block, the counter increment, and the tick re-arm. -/
def handleOutbound (cfg : HandshakeConfig) (queryCache : Nat → RemoteList)
    (relayEffects : RemoteList → List Nat) (pending : HostMap)
    (wheel : List (Nat × Int)) (vpnIp : Nat) (lighthouseTriggered : Bool) :
    HOResult :=
  match lookupHI pending.hosts vpnIp with
  | none => ⟨pending, none, [], [], [], wheel⟩
  | some hostinfo =>
    if hostinfo.handshakeComplete then
      ⟨unlockedDeleteHostInfo pending hostinfo, some hostinfo, [], [], [], wheel⟩
    else if !hostinfo.handshakeReady then
      ⟨pending, some hostinfo, [], [], [],
        timerWheelAdd wheel cfg.tryInterval vpnIp
          (cfg.tryInterval * hostinfo.handshakeCounter)⟩
    else if cfg.retries ≤ hostinfo.handshakeCounter then
      ⟨unlockedDeleteHostInfo pending hostinfo, some hostinfo, [], [], [], wheel⟩
    else if lighthouseTriggered && 0 < hostinfo.handshakeCounter then
      ⟨pending, some hostinfo, [], [], [], wheel⟩
    else
      let remotes := hostinfo.remotes.getD (queryCache vpnIp)
      let h1 := { hostinfo with remotes := some remotes }
      let lhQs : List Nat := if remotes.addrs.length ≤ 1 then [vpnIp] else []
      let sent := remotes.addrs.map fun a => (hsPacket hostinfo 0, a)
      let rmsgs := if cfg.useRelays then relayEffects remotes else []
      let h2 := { h1 with handshakeCounter := h1.handshakeCounter + 1 }
      let wheel' :=
        if lighthouseTriggered then wheel
        else timerWheelAdd wheel cfg.tryInterval vpnIp
          (cfg.tryInterval * h2.handshakeCounter)
      ⟨hostMapUpdateAlias pending h2, some h2, sent, lhQs, rmsgs, wheel'⟩

/-! # Theorems settling the claims -/

/-! ## C6 — the hsTimeout wheel window -/

/-- C6 counterexample: for the odd retry count 3 and the default
100 ms interval, `hsTimeout` is 400 ms, strictly below the worst-case
linear-backoff horizon `interval * 3 * (3+1) / 2 = 600` ms; the claim
that the window is at least the horizon for every `tries ≥ 1` is
false. -/
theorem C6_odd_tries_undersize_cex :
    hsTimeout 3 100000000 = 400000000 ∧
    (100000000 : Int) * ((3 * (3 + 1) / 2 : Nat) : Int) = 600000000 ∧
    hsTimeout 3 100000000 < 100000000 * ((3 * (3 + 1) / 2 : Nat) : Int) := by
  refine ⟨by norm_num [hsTimeout], by norm_num, by norm_num [hsTimeout]⟩

/-- C6 (amended): the wheel window `hsTimeout(tries, interval)` plus a
shortfall of `(tries mod 2) · ⌈tries/2⌉ · interval` equals the exact
worst-case linear-backoff horizon `interval · tries·(tries+1)/2`; in
particular the window equals the horizon for even `tries` and
under-sizes it by `⌈tries/2⌉ · interval` for odd `tries`. -/
theorem C6_hsTimeout_characterization (tries : Nat) (interval : Int) :
    hsTimeout tries interval
        + ((tries % 2 : Nat) : Int) * (((tries + 1) / 2 : Nat) : Int) * interval
      = interval * ((tries * (tries + 1) / 2 : Nat) : Int) := by
  rcases Nat.even_or_odd tries with ⟨k, hk⟩ | ⟨k, hk⟩
  · subst hk
    have h1 : (k + k) / 2 = k := by omega
    have h2 : (k + k) * (k + k + 1) / 2 = k * (k + k + 1) := by
      rw [show (k + k) * (k + k + 1) = 2 * (k * (k + k + 1)) by ring]
      omega
    have h0 : (k + k) % 2 = 0 := by omega
    simp only [hsTimeout, h1, h2, h0]
    push_cast
    ring
  · subst hk
    have h1 : (2 * k + 1) / 2 = k := by omega
    have h2 : (2 * k + 1 + 1) / 2 = k + 1 := by omega
    have h3 : (2 * k + 1) * (2 * k + 1 + 1) / 2 = (2 * k + 1) * (k + 1) := by
      rw [show (2 * k + 1) * (2 * k + 1 + 1) = 2 * ((2 * k + 1) * (k + 1)) by ring]
      omega
    have h4 : (2 * k + 1) % 2 = 1 := by omega
    simp only [hsTimeout, h1, h2, h3, h4]
    push_cast
    ring

/-! ## C7 — Sign on a bad key or an unsupported curve -/

/-- A placeholder Ed25519 signing oracle for concrete evaluation. -/
def edOracle : List Nat → RawNebulaCertificateDetails → List Nat := fun _ _ => []

/-- A placeholder ECDSA signing oracle for concrete evaluation. -/
def ecdsaOracle : List Nat → RawNebulaCertificateDetails → Except String (List Nat) :=
  fun _ _ => .ok []

/-- A Curve25519 certificate with empty constraint fields. -/
def cexC7details : NebulaCertificateDetails :=
  { name := "c7", ips := [], subnets := [], groups := [],
    notBefore := 0, notAfter := 10, publicKey := List.replicate 32 0,
    isCA := false, issuer := [], invertedGroups := [], curve := Curve_CURVE25519 }

def cexC7 : NebulaCertificate := { details := cexC7details, signature := [] }

/-- The same certificate declaring the unsupported curve value 5. -/
def cexC7bad : NebulaCertificate :=
  { details := { cexC7details with curve := 5 }, signature := [] }

/-- C7: signing a Curve25519 certificate with a 32-byte key (an
Ed25519 seed rather than the 64-byte private key) PANICS — the
Curve25519 arm of `Sign` passes the key straight to `ed25519.Sign`,
whose documented contract is to panic when the key length is not 64 —
whereas an unsupported curve value does return the `invalid curve`
error.  The claim (and the spec's "no panic paths") says a wrong-length
key yields an error; the code panics instead. -/
theorem C7_sign_bad_key_panics :
    Sign edOracle ecdsaOracle cexC7 Curve_CURVE25519 (List.replicate 32 0) = .panics ∧
    Sign edOracle ecdsaOracle cexC7bad 5 (List.replicate 32 0) = .err "invalid curve" ∧
    Sign edOracle ecdsaOracle cexC7 Curve_P256 (List.replicate 32 0)
      = .err "curve in cert and private key supplied don't match" := by
  refine ⟨rfl, rfl, rfl⟩

/-! ## C9 — Copy -/

/-- A P-256 certificate exercising every `Details` field. -/
def cexC9details : NebulaCertificateDetails :=
  { name := "c9", ips := [⟨[10, 0, 0, 1], [255, 255, 255, 0]⟩],
    subnets := [⟨[192, 168, 0, 0], [255, 255, 0, 0]⟩], groups := ["g1"],
    notBefore := 3, notAfter := 9, publicKey := List.replicate 32 7,
    isCA := true, issuer := [97, 98], invertedGroups := ["g1"], curve := Curve_P256 }

def cexC9 : NebulaCertificate := { details := cexC9details, signature := [5, 6] }

/-- C9 counterexample: `Copy` of a P-256 certificate returns a
certificate whose `Curve` is `Curve_CURVE25519` — the struct literal
in `Copy` never sets the `Curve` field, so it is left at the Go zero
value — refuting the claim that `Copy` preserves every field
including `Curve`. -/
theorem C9_copy_drops_curve_cex :
    cexC9.details.curve = Curve_P256 ∧
    (Copy cexC9).details.curve = Curve_CURVE25519 ∧
    (Copy cexC9).details.curve ≠ cexC9.details.curve := by
  refine ⟨rfl, rfl, by decide⟩

/-- C9 (amended): `Copy` returns a certificate equal to the original
in every `Details` field and in `Signature`, EXCEPT `Curve`, which is
always reset to the zero value `Curve_CURVE25519`. -/
theorem C9_copy_preserves_fields_except_curve (nc : NebulaCertificate) :
    (Copy nc).details.name = nc.details.name ∧
    (Copy nc).details.ips = nc.details.ips ∧
    (Copy nc).details.subnets = nc.details.subnets ∧
    (Copy nc).details.groups = nc.details.groups ∧
    (Copy nc).details.notBefore = nc.details.notBefore ∧
    (Copy nc).details.notAfter = nc.details.notAfter ∧
    (Copy nc).details.publicKey = nc.details.publicKey ∧
    (Copy nc).details.isCA = nc.details.isCA ∧
    (Copy nc).details.issuer = nc.details.issuer ∧
    (Copy nc).details.invertedGroups = nc.details.invertedGroups ∧
    (Copy nc).signature = nc.signature ∧
    (Copy nc).details.curve = Curve_CURVE25519 := by
  exact ⟨rfl, rfl, rfl, rfl, rfl, rfl, rfl, rfl, rfl, rfl, rfl, rfl⟩

/-! ## C10 — inclusive validity bounds -/

/-- A trivial fingerprint oracle for concrete instantiations. -/
def hashTrivial : RawNebulaCertificate → List Nat := fun _ => []

/-- A signature oracle that accepts everything, for concrete
instantiations. -/
def sigOkTrue : Curve → List Nat → RawNebulaCertificateDetails → List Nat → Bool :=
  fun _ _ _ _ => true

/-- `GetCAForCert` can only fail with `RootNotFound`. -/
theorem GetCAForCert_error {pool : CAPool} {nc : NebulaCertificate} {e : CertError}
    (h : GetCAForCert pool nc = .error e) : e = .rootNotFound := by
  unfold GetCAForCert at h
  split at h
  · exact (Except.error.injEq .. ▸ h).symm
  · split at h
    · exact absurd h (by simp)
    · exact (Except.error.injEq .. ▸ h).symm

/-- When the leaf itself is not expired at `t`, `verify` cannot return
the leaf-expiry error (every other pipeline stage has a different
error kind). -/
theorem verify_ne_expired (hash : RawNebulaCertificate → List Nat)
    (sigOk : Curve → List Nat → RawNebulaCertificateDetails → List Nat → Bool)
    (t : Int) (pool : CAPool) (nc : NebulaCertificate) (caches : Caches) (u : Bool)
    (hnx : Expired nc t = false) :
    (verify hash sigOk t pool nc caches u).1 ≠ .fail .expired := by
  unfold verify
  cases hbl : (isBlocklistedWithCache hash pool nc caches u).1
  · cases hca : GetCAForCert pool nc with
    | error e =>
      have := GetCAForCert_error hca
      subst this
      simp [hbl, hca]
    | ok signer =>
      cases hsx : Expired signer t
      · simp only [hbl, Bool.false_eq_true, if_false, hca, hsx, hnx]
        cases hsv : (checkSignatureWithCache sigOk nc signer.details.publicKey
            (isBlocklistedWithCache hash pool nc caches u).2 u).1
        · simp [hsv]
        · simp only [hsv, Bool.not_true, Bool.false_eq_true, if_false]
          cases hcc : CheckRootConstrains signer nc <;> simp [hcc]
      · simp [hbl, hca, hsx]
  · simp [hbl]

/-- C10 (amended): `Expired(t)` is false exactly when
`NotBefore ≤ t ≤ NotAfter` (both bounds inclusive), for every
certificate and time; and PROVIDED the validity window is well-formed
(`NotBefore ≤ NotAfter`), the certificate is still valid at the exact
`NotBefore` and `NotAfter` instants and `verify` at exactly those
instants never returns the `Expired` error. -/
theorem C10_expired_inclusive_bounds (nc : NebulaCertificate) (t : Int) :
    (Expired nc t = false ↔ nc.details.notBefore ≤ t ∧ t ≤ nc.details.notAfter) ∧
    (nc.details.notBefore ≤ nc.details.notAfter →
      Expired nc nc.details.notBefore = false ∧
      Expired nc nc.details.notAfter = false ∧
      ∀ hash sigOk pool caches u,
        (verify hash sigOk nc.details.notBefore pool nc caches u).1 ≠ .fail .expired ∧
        (verify hash sigOk nc.details.notAfter pool nc caches u).1 ≠ .fail .expired) := by
  have hiff : ∀ s : Int, Expired nc s = false ↔
      nc.details.notBefore ≤ s ∧ s ≤ nc.details.notAfter := by
    intro s
    simp only [Expired, Bool.or_eq_false_iff, decide_eq_false_iff_not]
    omega
  refine ⟨hiff t, fun hw => ⟨?_, ?_, fun hash sigOk pool caches u => ⟨?_, ?_⟩⟩⟩
  · exact (hiff _).mpr ⟨le_refl _, hw⟩
  · exact (hiff _).mpr ⟨hw, le_refl _⟩
  · exact verify_ne_expired _ _ _ _ _ _ _ ((hiff _).mpr ⟨le_refl _, hw⟩)
  · exact verify_ne_expired _ _ _ _ _ _ _ ((hiff _).mpr ⟨hw, le_refl _⟩)

/-- A certificate with a degenerate validity window
(`NotAfter < NotBefore`). -/
def cexC10details : NebulaCertificateDetails :=
  { name := "", ips := [], subnets := [], groups := [],
    notBefore := 1, notAfter := 0, publicKey := [], isCA := false,
    issuer := [97], invertedGroups := [], curve := Curve_CURVE25519 }

def cexC10 : NebulaCertificate := { details := cexC10details, signature := [] }

/-- The CA resolving `cexC10`'s issuer, valid at the probed instant. -/
def cexC10caDetails : NebulaCertificateDetails :=
  { name := "", ips := [], subnets := [], groups := [],
    notBefore := -5, notAfter := 50, publicKey := [1], isCA := true,
    issuer := [], invertedGroups := [], curve := Curve_CURVE25519 }

def cexC10ca : NebulaCertificate := { details := cexC10caDetails, signature := [] }

def cexC10pool : CAPool := { cas := [([97], cexC10ca)], blocklist := [] }

/-- C10 counterexample: for a certificate with `NotAfter < NotBefore`,
`Expired` at the exact `NotBefore` instant is true and `Verify` at
that instant DOES return the `Expired` error, refuting the claim's
universally quantified boundary clauses ("still considered valid at
the exact NotBefore instant", "Verify at exactly those instants does
not return Expired"). -/
theorem C10_degenerate_window_cex :
    cexC10.details.notBefore = 1 ∧ cexC10.details.notAfter = 0 ∧
    Expired cexC10 cexC10.details.notBefore = true ∧
    (Verify hashTrivial sigOkTrue 1 cexC10pool cexC10 Caches.pristine).1
      = .fail .expired := by
  exact ⟨rfl, rfl, rfl, rfl⟩

/-- A well-formed certificate for the C10 witness. -/
def wC10details : NebulaCertificateDetails :=
  { name := "", ips := [], subnets := [], groups := [],
    notBefore := 0, notAfter := 10, publicKey := [], isCA := false,
    issuer := [97], invertedGroups := [], curve := Curve_CURVE25519 }

def wC10 : NebulaCertificate := { details := wC10details, signature := [] }

/-- C10 witness: the boundary clauses of the amended claim at a
concrete well-formed certificate. -/
theorem C10_expired_inclusive_bounds_witness :
    Expired wC10 0 = false ∧ Expired wC10 10 = false := by
  refine ⟨?_, ?_⟩
  · have h := ((C10_expired_inclusive_bounds wC10 0).2 (by decide)).1
    exact h
  · have h := ((C10_expired_inclusive_bounds wC10 10).2 (by decide)).2.1
    exact h

/-! ## C5 / C8 — handleOutbound -/

/-- An empty lighthouse cache oracle for concrete instantiations. -/
def emptyQueryCache : Nat → RemoteList := fun _ => ⟨[], []⟩

/-- A trivial relay-effects oracle for concrete instantiations. -/
def noRelayEffects : RemoteList → List Nat := fun _ => []

/-- The clamp performed by the wheel on the requested duration
`tryInterval · counter` yields `tryInterval` exactly when the counter
is zero (for a positive tick). -/
theorem wheel_clamp_eq (tick : Int) (cnt : Nat) (hpos : 0 < tick) :
    (if tick * (cnt : Int) < tick then tick else tick * (cnt : Int))
      = (if cnt = 0 then tick else tick * (cnt : Int)) := by
  rcases Nat.eq_zero_or_pos cnt with h0 | h0
  · simp [h0, hpos]
  · have h1 : (1 : Int) ≤ (cnt : Int) := by exact_mod_cast h0
    have hle : tick ≤ tick * (cnt : Int) := le_mul_of_one_le_right (le_of_lt hpos) h1
    rw [if_neg (not_lt.mpr hle), if_neg (by omega)]

/-- C5 (amended): for every PENDING HostInfo with `handshake_ready`
false AND `handshake_complete` false (a positive `try_interval`
assumed), `handleOutbound` sends no packets, issues no lighthouse
queries and no relay messages, leaves the pending table and the
HostInfo (hence `handshake_counter`) unchanged, and re-arms the timer
wheel with delay `try_interval · handshake_counter` when the counter
is positive and `try_interval` when it is zero. -/
theorem C5_not_ready_rearms (cfg : HandshakeConfig) (qc : Nat → RemoteList)
    (re : RemoteList → List Nat) (pending : HostMap) (wheel : List (Nat × Int))
    (vpnIp : Nat) (lt? : Bool) (h : HostInfo)
    (hl : lookupHI pending.hosts vpnIp = some h)
    (hr : h.handshakeReady = false) (hcpl : h.handshakeComplete = false)
    (hpos : 0 < cfg.tryInterval) :
    handleOutbound cfg qc re pending wheel vpnIp lt?
      = ⟨pending, some h, [], [], [],
          wheel ++ [(vpnIp, if h.handshakeCounter = 0 then cfg.tryInterval
            else cfg.tryInterval * (h.handshakeCounter : Int))]⟩ := by
  simp only [handleOutbound, hl, hcpl, hr, Bool.false_eq_true, if_false,
    Bool.not_false, if_true, timerWheelAdd]
  rw [wheel_clamp_eq _ _ hpos]

/-- A pending, not-ready, not-complete HostInfo for the C5 witness. -/
def wC5hi : HostInfo :=
  { hiId := 1, vpnIp := 42, localIndexId := 7, remoteIndexId := 8,
    lastHandshakeTime := 0, handshakePacket := [], packetStore := [],
    handshakeComplete := false, handshakeReady := false, handshakeCounter := 3,
    remotes := none }

def wC5pending : HostMap :=
  { hosts := [(42, wC5hi)], indexes := [(7, wC5hi)], remoteIndexes := [(8, wC5hi)] }

def wC5cfg : HandshakeConfig := { tryInterval := 100, retries := 10, useRelays := true }

/-- C5 witness: the amended claim at a concrete pending entry with
counter 3 and tick 100 — the wheel is re-armed at 300. -/
theorem C5_not_ready_rearms_witness :
    handleOutbound wC5cfg emptyQueryCache noRelayEffects wC5pending [] 42 false
      = ⟨wC5pending, some wC5hi, [], [], [], [(42, 300)]⟩ := by
  have h := C5_not_ready_rearms wC5cfg emptyQueryCache noRelayEffects wC5pending []
    42 false wC5hi (by decide) (by decide) (by decide) (by decide)
  simpa using h

/-- A pending HostInfo that is complete but not ready. -/
def cexC5hi : HostInfo :=
  { hiId := 1, vpnIp := 42, localIndexId := 7, remoteIndexId := 8,
    lastHandshakeTime := 0, handshakePacket := [], packetStore := [],
    handshakeComplete := true, handshakeReady := false, handshakeCounter := 0,
    remotes := none }

def cexC5pending : HostMap :=
  { hosts := [(42, cexC5hi)], indexes := [(7, cexC5hi)], remoteIndexes := [(8, cexC5hi)] }

/-- C5 counterexample: a pending HostInfo with `handshake_ready` false
whose `handshake_complete` flag is set is DELETED from the pending
table and the timer wheel is NOT re-armed (the completion check at
part_000:114-118 precedes the readiness check), refuting the claim as
stated, which promises a wheel re-arm for every pending HostInfo with
`handshake_ready` false. -/
theorem C5_completed_not_ready_cex :
    lookupHI cexC5pending.hosts 42 = some cexC5hi ∧
    cexC5hi.handshakeReady = false ∧
    handleOutbound wC5cfg emptyQueryCache noRelayEffects cexC5pending [] 42 false
      = ⟨⟨[], [], []⟩, some cexC5hi, [], [], [], []⟩ := by
  exact ⟨rfl, rfl, rfl⟩

/-- C8: for every PENDING HostInfo that is handshake-ready, not
complete and not timed out, a lighthouse-triggered `handleOutbound`:
(a) with a positive `handshake_counter` sends nothing and changes no
state at all; (b) with a zero counter transmits `handshake_packet[0]`
to every known remote, bumps the counter to 1, and adds no new
timer-wheel entry. -/
theorem C8_lighthouse_triggered_behavior (cfg : HandshakeConfig)
    (qc : Nat → RemoteList) (re : RemoteList → List Nat) (pending : HostMap)
    (wheel : List (Nat × Int)) (vpnIp : Nat) (h : HostInfo)
    (hl : lookupHI pending.hosts vpnIp = some h)
    (hr : h.handshakeReady = true) (hcpl : h.handshakeComplete = false)
    (htries : h.handshakeCounter < cfg.retries) :
    (0 < h.handshakeCounter →
      handleOutbound cfg qc re pending wheel vpnIp true
        = ⟨pending, some h, [], [], [], wheel⟩) ∧
    (h.handshakeCounter = 0 →
      (handleOutbound cfg qc re pending wheel vpnIp true).sent
          = (h.remotes.getD (qc vpnIp)).addrs.map (fun a => (hsPacket h 0, a)) ∧
        (handleOutbound cfg qc re pending wheel vpnIp true).hostinfo
          = some { h with remotes := some (h.remotes.getD (qc vpnIp)),
                          handshakeCounter := 1 } ∧
        (handleOutbound cfg qc re pending wheel vpnIp true).wheel = wheel) := by
  constructor
  · intro hc
    simp only [handleOutbound, hl, hcpl, hr, Bool.false_eq_true, if_false,
      Bool.not_true, if_neg (not_le.mpr htries), hc]
    simp
  · intro hc
    simp only [handleOutbound, hl, hcpl, hr, Bool.false_eq_true, if_false,
      Bool.not_true, if_neg (not_le.mpr htries)]
    simp only [hc]
    refine ⟨?_, ?_, ?_⟩ <;> simp [hcpl, hr]

/-- A ready, incomplete, zero-counter pending HostInfo with two known
remotes, for the C8 witness. -/
def wC8hi : HostInfo :=
  { hiId := 1, vpnIp := 42, localIndexId := 7, remoteIndexId := 8,
    lastHandshakeTime := 0, handshakePacket := [(0, [1, 2, 3])], packetStore := [],
    handshakeComplete := false, handshakeReady := true, handshakeCounter := 0,
    remotes := some ⟨[5, 6], [9]⟩ }

def wC8pending : HostMap :=
  { hosts := [(42, wC8hi)], indexes := [(7, wC8hi)], remoteIndexes := [(8, wC8hi)] }

/-- C8 witness: the zero-counter lighthouse-triggered case at a
concrete pending entry — packet `[1,2,3]` goes to both remotes, the
counter becomes 1, and the wheel stays empty. -/
theorem C8_lighthouse_triggered_behavior_witness :
    (handleOutbound wC5cfg emptyQueryCache noRelayEffects wC8pending [] 42 true).sent
        = [([1, 2, 3], 5), ([1, 2, 3], 6)] ∧
      (handleOutbound wC5cfg emptyQueryCache noRelayEffects wC8pending [] 42 true).hostinfo
        = some { wC8hi with remotes := some ⟨[5, 6], [9]⟩, handshakeCounter := 1 } ∧
      (handleOutbound wC5cfg emptyQueryCache noRelayEffects wC8pending [] 42 true).wheel
        = [] := by
  have h := (C8_lighthouse_triggered_behavior wC5cfg emptyQueryCache noRelayEffects
    wC8pending [] 42 wC8hi (by decide) (by decide) (by decide) (by decide)).2 rfl
  simpa using h

/-! ## C2 — CheckAndComplete error paths -/

/-- The final install step never reports an error. -/
theorem cacFinish_err_none (m p : HostMap) (h : HostInfo) (e : Option HostInfo) :
    (cacFinish m p h e).err = none := by
  cases e <;> rfl

/-- An error out of the pending-race step leaves everything untouched. -/
theorem cacRest2_unchanged (m p : HostMap) (h : HostInfo) (ow : Bool)
    (e : Option HostInfo) (herr : (cacRest2 m p h ow e).err ≠ none) :
    (cacRest2 m p h ow e).main = m ∧ (cacRest2 m p h ow e).pending = p ∧
      (cacRest2 m p h ow e).hostinfo = h := by
  unfold cacRest2 at herr ⊢
  cases hx : lookupHI p.hosts h.vpnIp with
  | none =>
    rw [hx] at herr
    exact absurd (cacFinish_err_none ..) herr
  | some q =>
    rw [hx] at herr
    cases ow with
    | false => exact ⟨rfl, rfl, rfl⟩
    | true =>
      simp only [Bool.not_true, Bool.false_eq_true, if_false, cacFinish_err_none,
        ne_eq, not_true_eq_false] at herr

/-- An error out of the collision checks leaves everything untouched. -/
theorem cacRest_unchanged (m p : HostMap) (h : HostInfo) (ow : Bool)
    (e : Option HostInfo) (herr : (cacRest m p h ow e).err ≠ none) :
    (cacRest m p h ow e).main = m ∧ (cacRest m p h ow e).pending = p ∧
      (cacRest m p h ow e).hostinfo = h := by
  unfold cacRest at herr ⊢
  cases hx : lookupHI m.indexes h.localIndexId with
  | some ei => exact ⟨rfl, rfl, rfl⟩
  | none =>
    rw [hx] at herr
    cases hy : lookupHI p.indexes h.localIndexId with
    | none =>
      rw [hy] at herr
      exact cacRest2_unchanged m p h ow e herr
    | some ei =>
      rw [hy] at herr
      dsimp only at herr ⊢
      by_cases hid : ei.hiId ≠ h.hiId
      · rw [if_pos hid]; exact ⟨rfl, rfl, rfl⟩
      · rw [if_neg hid] at herr ⊢
        exact cacRest2_unchanged m p h ow e herr

/-- C2: whenever `CheckAndComplete` returns one of the coordination
errors (`AlreadySeen`, `ExistingHostInfo`, `LocalIndexCollision`,
`ExistingHandshake`), both the main and the pending host-map are left
completely unchanged and the `hostinfo` argument is untouched (in
particular nothing was installed, deleted, or packet-store-spliced):
every error return in the source precedes the first mutation. -/
theorem C2_error_leaves_maps_unchanged (main pending : HostMap)
    (hostinfo : HostInfo) (hp : Nat) (ow : Bool)
    (herr : (CheckAndComplete main pending hostinfo hp ow).err ≠ none) :
    (CheckAndComplete main pending hostinfo hp ow).main = main ∧
    (CheckAndComplete main pending hostinfo hp ow).pending = pending ∧
    (CheckAndComplete main pending hostinfo hp ow).hostinfo = hostinfo := by
  unfold CheckAndComplete at herr ⊢
  cases hx : lookupHI main.hosts hostinfo.vpnIp with
  | none =>
    rw [hx] at herr
    exact cacRest_unchanged _ _ _ _ _ herr
  | some e =>
    rw [hx] at herr
    dsimp only at herr ⊢
    cases h1 : (hsPacket hostinfo hp == hsPacket e hp) with
    | true => exact ⟨rfl, rfl, rfl⟩
    | false =>
      rw [h1] at herr
      simp only [Bool.false_eq_true, if_false] at herr ⊢
      by_cases h2 : hostinfo.lastHandshakeTime ≤ e.lastHandshakeTime
      · rw [if_pos h2]; exact ⟨rfl, rfl, rfl⟩
      · rw [if_neg h2] at herr ⊢
        exact cacRest_unchanged _ _ _ _ _ herr

/-- The pending entry raced by the C2 witness promotion. -/
def wC2pendingHi : HostInfo :=
  { hiId := 1, vpnIp := 42, localIndexId := 7, remoteIndexId := 8,
    lastHandshakeTime := 0, handshakePacket := [(0, [1, 2, 3])], packetStore := [4],
    handshakeComplete := false, handshakeReady := true, handshakeCounter := 0,
    remotes := none }

def wC2pending : HostMap :=
  { hosts := [(42, wC2pendingHi)], indexes := [(7, wC2pendingHi)],
    remoteIndexes := [(8, wC2pendingHi)] }

/-- The completed HostInfo the C2 witness tries to install. -/
def wC2new : HostInfo :=
  { hiId := 2, vpnIp := 42, localIndexId := 11, remoteIndexId := 12,
    lastHandshakeTime := 5, handshakePacket := [(0, [9, 9])], packetStore := [],
    handshakeComplete := true, handshakeReady := true, handshakeCounter := 1,
    remotes := none }

/-- C2 witness: with an in-flight pending handshake for the same vpn
ip and `overwrite = false`, `CheckAndComplete` returns
`ExistingHandshake` and both maps and the new HostInfo are unchanged. -/
theorem C2_error_leaves_maps_unchanged_witness :
    (CheckAndComplete ⟨[], [], []⟩ wC2pending wC2new 0 false).err
        = some .existingHandshake ∧
      (CheckAndComplete ⟨[], [], []⟩ wC2pending wC2new 0 false).main = ⟨[], [], []⟩ ∧
      (CheckAndComplete ⟨[], [], []⟩ wC2pending wC2new 0 false).pending = wC2pending ∧
      (CheckAndComplete ⟨[], [], []⟩ wC2pending wC2new 0 false).hostinfo = wC2new := by
  have h := C2_error_leaves_maps_unchanged ⟨[], [], []⟩ wC2pending wC2new 0 false
    (by decide)
  exact ⟨by decide, h⟩

/-! ## C3 — Marshal/Unmarshal round trip -/

/-- A `net.IPNet` entry in the canonical 4-byte form (the form
`UnmarshalNebulaCertificate` produces): 4-byte address and mask, every
element a byte. -/
def ValidNetBytes (n : IPNet) : Prop :=
  n.ip.length = 4 ∧ n.mask.length = 4 ∧
    (∀ b ∈ n.ip, b < 256) ∧ (∀ b ∈ n.mask, b < 256)

instance (n : IPNet) : Decidable (ValidNetBytes n) := by
  unfold ValidNetBytes; infer_instance

/-- A canonical (lowercase, even-length) hex string, the form
`hex.EncodeToString` produces. -/
def CanonicalHex (s : List Nat) : Prop :=
  s.length % 2 = 0 ∧ ∀ c ∈ s, isLowerHexCode c = true

instance (s : List Nat) : Decidable (CanonicalHex s) := by
  unfold CanonicalHex; infer_instance

/-- `int2ip` inverts `ip2int` on canonical 4-byte addresses. -/
theorem int2ip_ip2int {ip : List Nat} (hlen : ip.length = 4)
    (hb : ∀ b ∈ ip, b < 256) : int2ip (ip2int ip) = ip := by
  match ip, hlen with
  | [a, b, c, d], _ =>
    have ha := hb a (by simp)
    have hbb := hb b (by simp)
    have hc := hb c (by simp)
    have hd := hb d (by simp)
    simp only [ip2int, int2ip, beUint32, List.length_cons, List.length_nil]
    norm_num
    refine ⟨?_, ?_, ?_, ?_⟩ <;> omega

/-- The unmarshal pairing loop inverts the marshal flattening on
canonical entries. -/
theorem pairUp_flatten {l : List IPNet} (h : ∀ n ∈ l, ValidNetBytes n) :
    pairUp (l.flatMap fun n => [ip2int n.ip, ip2int n.mask]) = l := by
  induction l with
  | nil => rfl
  | cons n rest ih =>
    obtain ⟨h1, h2, h3, h4⟩ := h n (by simp)
    have hrest := ih fun m hm => h m (List.mem_cons_of_mem _ hm)
    have hcons : ((n :: rest).flatMap fun m => [ip2int m.ip, ip2int m.mask])
        = ip2int n.ip :: ip2int n.mask ::
            (rest.flatMap fun m => [ip2int m.ip, ip2int m.mask]) := by
      simp
    rw [hcons]
    simp only [pairUp]
    rw [int2ip_ip2int h1 h3, int2ip_ip2int h2 h4, hrest]

/-- The flattened word list always has even length. -/
theorem flatten_length_even (l : List IPNet) :
    (l.flatMap fun n => [ip2int n.ip, ip2int n.mask]).length % 2 = 0 := by
  induction l with
  | nil => rfl
  | cons n rest ih =>
    simp only [List.flatMap_cons, List.length_append, List.length_cons,
      List.length_nil] at *
    omega

/-- Each lowercase hex digit decodes and re-encodes to itself. -/
theorem lowerHex_roundtrip {c : Nat} (h : isLowerHexCode c = true) :
    ∃ v, fromHexCode c = some v ∧ v < 16 ∧ hexDigitCode v = c := by
  simp only [isLowerHexCode, Bool.or_eq_true, Bool.and_eq_true, decide_eq_true_eq] at h
  rcases h with ⟨h1, h2⟩ | ⟨h1, h2⟩
  · refine ⟨c - 48, ?_, by omega, ?_⟩
    · simp only [fromHexCode, if_pos (And.intro h1 h2)]
    · simp only [hexDigitCode, if_pos (by omega : c - 48 < 10)]
      omega
  · refine ⟨c - 87, ?_, by omega, ?_⟩
    · have hnot : ¬(48 ≤ c ∧ c ≤ 57) := by omega
      simp only [fromHexCode, if_neg hnot, if_pos (And.intro h1 h2)]
    · simp only [hexDigitCode, if_neg (by omega : ¬ c - 87 < 10)]
      omega

/-- `hexEncode` inverts `hexDecode` on canonical hex strings. -/
theorem hexEncode_hexDecode :
    ∀ s : List Nat, CanonicalHex s → hexEncode (hexDecode s) = s
  | [], _ => rfl
  | [a], h => by
    obtain ⟨hlen, _⟩ := h
    simp at hlen
  | a :: b :: rest, h => by
    obtain ⟨hlen, hc⟩ := h
    obtain ⟨va, hfa, hva, hda⟩ := lowerHex_roundtrip (hc a (by simp))
    obtain ⟨vb, hfb, hvb, hdb⟩ := lowerHex_roundtrip (hc b (by simp))
    have ih := hexEncode_hexDecode rest
      ⟨by simp only [List.length_cons] at hlen ⊢; omega,
        fun c hcm => hc c (by simp [hcm])⟩
    simp only [hexDecode, hfa, hfb, hexEncode, List.flatMap_cons] at ih ⊢
    have hdiv : (16 * va + vb) / 16 = va := by omega
    have hmod : (16 * va + vb) % 16 = vb := by omega
    rw [hdiv, hmod, hda, hdb, ih]
    rfl

/-- C3 (amended): for every certificate with canonical 4-byte
ips/subnets, a public key of at least 32 bytes, and an issuer in
CANONICAL (lowercase, even-length) hex,
`UnmarshalNebulaCertificate(Marshal(c))` succeeds and the result
equals `c` in every field except `InvertedGroups`, which is rebuilt
from the groups. -/
theorem C3_marshal_unmarshal_roundtrip (c : NebulaCertificate)
    (hips : ∀ n ∈ c.details.ips, ValidNetBytes n)
    (hsub : ∀ n ∈ c.details.subnets, ValidNetBytes n)
    (hpk : 32 ≤ c.details.publicKey.length)
    (hiss : CanonicalHex c.details.issuer) :
    unmarshalNebulaCertificate (marshalCert c)
      = .ok { details := { c.details with invertedGroups := c.details.groups },
              signature := c.signature } := by
  have hraw : marshalCert c
      = { details := some (getRawDetails c), signature := c.signature } := rfl
  rw [hraw]
  unfold unmarshalNebulaCertificate
  dsimp only [getRawDetails]
  rw [if_neg (not_not_intro (flatten_length_even c.details.ips)),
    if_neg (not_not_intro (flatten_length_even c.details.subnets)),
    if_neg (not_lt.mpr hpk),
    pairUp_flatten hips, pairUp_flatten hsub, hexEncode_hexDecode _ hiss]

/-- A concrete valid certificate for the C3 witness. -/
def wC3details : NebulaCertificateDetails :=
  { name := "n", ips := [⟨[10, 0, 0, 1], [255, 255, 255, 0]⟩],
    subnets := [⟨[192, 168, 0, 0], [255, 255, 0, 0]⟩], groups := ["a", "b"],
    notBefore := 3, notAfter := 9, publicKey := List.replicate 32 7,
    isCA := false, issuer := [48, 49, 48, 50], invertedGroups := ["a", "b"],
    curve := Curve_P256 }

def wC3 : NebulaCertificate := { details := wC3details, signature := [9, 9] }

/-- C3 witness: the round trip at a concrete certificate with a
canonical lowercase hex issuer `"0102"`. -/
theorem C3_marshal_unmarshal_roundtrip_witness :
    unmarshalNebulaCertificate (marshalCert wC3)
      = .ok { details := { wC3.details with invertedGroups := wC3.details.groups },
              signature := wC3.signature } :=
  C3_marshal_unmarshal_roundtrip wC3 (by decide) (by decide) (by decide) (by decide)

/-- A certificate whose issuer `"AB"` is hex-decodable but uppercase. -/
def cexC3details : NebulaCertificateDetails :=
  { name := "", ips := [], subnets := [], groups := [],
    notBefore := 0, notAfter := 1, publicKey := List.replicate 32 0,
    isCA := false, issuer := [65, 66], invertedGroups := [],
    curve := Curve_CURVE25519 }

def cexC3 : NebulaCertificate := { details := cexC3details, signature := [] }

/-- The certificate the round trip actually returns for `cexC3`: the
issuer has become lowercase `"ab"`. -/
def cexC3out : NebulaCertificate :=
  { details := { cexC3details with issuer := [97, 98] }, signature := [] }

/-- C3 counterexample: the issuer `"AB"` (codes 65, 66) is
hex-decodable — both digits decode — yet
`UnmarshalNebulaCertificate(Marshal(c))` returns the issuer `"ab"`
(codes 97, 98), because `getRawDetails` hex-decodes the issuer and the
unmarshal re-encodes it in lowercase; the certificate is otherwise
valid, so the round trip is NOT the identity on all certificates with
merely hex-decodable issuers. -/
theorem C3_uppercase_issuer_cex :
    fromHexCode 65 = some 10 ∧ fromHexCode 66 = some 11 ∧
    unmarshalNebulaCertificate (marshalCert cexC3) = .ok cexC3out ∧
    cexC3out.details.issuer ≠ cexC3.details.issuer := by
  exact ⟨rfl, rfl, rfl, by decide⟩

/-! ## C1 — Verify against the root constraints -/

/-- An IPNet entry whose address and mask are in 4-byte form (the
canonical form `UnmarshalNebulaCertificate` produces). -/
def ValidNet4 (n : IPNet) : Prop := n.ip.length = 4 ∧ n.mask.length = 4

instance (n : IPNet) : Decidable (ValidNet4 n) := by
  unfold ValidNet4; infer_instance

theorem exists_len4 {l : List Nat} (h : l.length = 4) :
    ∃ a b c d : Nat, l = [a, b, c, d] := by
  match l with
  | [a, b, c, d] => exact ⟨a, b, c, d, rfl⟩
  | [] | [_] | [_, _] | [_, _, _] => simp at h
  | _ :: _ :: _ :: _ :: _ :: _ => simp at h

theorem ball_four {P : Nat → Prop} :
    (∀ i, i < 4 → P i) ↔ P 0 ∧ P 1 ∧ P 2 ∧ P 3 := by
  constructor
  · intro h
    exact ⟨h 0 (by omega), h 1 (by omega), h 2 (by omega), h 3 (by omega)⟩
  · rintro ⟨h0, h1, h2, h3⟩ i hi
    interval_cases i <;> assumption

example {e : IPNet} {ip : List Nat}
    (he : e.ip.length = 4) (hm : e.mask.length = 4) (hip : ip.length = 4) :
    (ipnetContains e ip = true ↔
      ∀ i, i < 4 →
        e.ip.getD i 0 &&& e.mask.getD i 0 = ip.getD i 0 &&& e.mask.getD i 0) := by
  obtain ⟨a, b, c, d, hE⟩ := exists_len4 he
  obtain ⟨m0, m1, m2, m3, hM⟩ := exists_len4 hm
  obtain ⟨x, y, z, w, hI⟩ := exists_len4 hip
  obtain ⟨eip, emask⟩ := e
  simp only at hE hM
  subst hE hM hI
  rw [ball_four]
  simp [ipnetContains, networkNumberAndMask, to4]
  constructor <;> rintro ⟨p1, p2, p3, p4⟩ <;> exact ⟨p1.symm, p2.symm, p3.symm, p4.symm⟩

theorem maskContains_len4 {cam cm : List Nat}
    (h1 : cam.length = 4) (h2 : cm.length = 4) :
    maskContains cam cm
      = some (decide (∀ i : Nat, i < 4 → List.getD cam i 0 ≤ List.getD cm i 0)) := by
  obtain ⟨a, b, c, d, hA⟩ := exists_len4 h1
  obtain ⟨x, y, z, w, hB⟩ := exists_len4 h2
  subst hA hB
  have hloop : maskContains [a, b, c, d] [x, y, z, w]
      = (if x < a then some false else if y < b then some false
         else if z < c then some false else if w < d then some false else some true) := by
    simp [maskContains, maskTo4, maskCmpLoop]
  have hiff : (∀ i : Nat, i < 4 → List.getD [a, b, c, d] i 0 ≤ List.getD [x, y, z, w] i 0)
      ↔ (a ≤ x ∧ b ≤ y ∧ c ≤ z ∧ d ≤ w) := by
    rw [ball_four]
    simp
  rw [hloop]
  by_cases hP : ∀ i : Nat, i < 4 → List.getD [a, b, c, d] i 0 ≤ List.getD [x, y, z, w] i 0
  · have h4 := hiff.mp hP
    rw [decide_eq_true hP, if_neg (by omega), if_neg (by omega), if_neg (by omega),
      if_neg (by omega)]
  · have h4 : ¬(a ≤ x ∧ b ≤ y ∧ c ≤ z ∧ d ≤ w) := fun hh => hP (hiff.mpr hh)
    rw [decide_eq_false hP]
    by_cases hx : x < a
    · rw [if_pos hx]
    · by_cases hy : y < b
      · rw [if_neg hx, if_pos hy]
      · by_cases hz : z < c
        · rw [if_neg hx, if_neg hy, if_pos hz]
        · rw [if_neg hx, if_neg hy, if_neg hz, if_pos (by omega)]

/-- Containment of a leaf entry in a signer entry, in the spec's
words: the address is covered by the signer's network (masked
byte-wise agreement) and the signer's mask is at least as wide
(byte-wise ≤), on 4-byte forms. -/
def specNetContained (e leafNet : IPNet) : Prop :=
  (∀ i : Nat, i < 4 →
    List.getD e.ip i 0 &&& List.getD e.mask i 0
      = List.getD leafNet.ip i 0 &&& List.getD e.mask i 0) ∧
  (∀ i : Nat, i < 4 → List.getD e.mask i 0 ≤ List.getD leafNet.mask i 0)

instance (e leafNet : IPNet) : Decidable (specNetContained e leafNet) := by
  unfold specNetContained; infer_instance

theorem ipnetContains_len4 {e : IPNet} {ip : List Nat}
    (he : e.ip.length = 4) (hm : e.mask.length = 4) (hip : ip.length = 4) :
    (ipnetContains e ip = true ↔
      ∀ i : Nat, i < 4 →
        List.getD e.ip i 0 &&& List.getD e.mask i 0
          = List.getD ip i 0 &&& List.getD e.mask i 0) := by
  obtain ⟨a, b, c, d, hE⟩ := exists_len4 he
  obtain ⟨m0, m1, m2, m3, hM⟩ := exists_len4 hm
  obtain ⟨x, y, z, w, hI⟩ := exists_len4 hip
  obtain ⟨eip, emask⟩ := e
  simp only at hE hM
  subst hE hM hI
  rw [ball_four]
  simp [ipnetContains, networkNumberAndMask, to4]
  constructor <;> rintro ⟨p1, p2, p3, p4⟩ <;> exact ⟨p1.symm, p2.symm, p3.symm, p4.symm⟩

theorem netMatch_len4 {leafNet : IPNet} {roots : List IPNet}
    (hl : ValidNet4 leafNet) (hr : ∀ e ∈ roots, ValidNet4 e) :
    netMatch leafNet roots
      = some (decide (∃ e ∈ roots, specNetContained e leafNet)) := by
  induction roots with
  | nil => simp [netMatch]
  | cons n rest ih =>
    have hn := hr n (List.mem_cons_self ..)
    have hrest := ih fun e he => hr e (List.mem_cons_of_mem _ he)
    have hcont := ipnetContains_len4 hn.1 hn.2 hl.1
    have hmask := maskContains_len4 hn.2 hl.2
    have hiffx : ¬ specNetContained n leafNet →
        ((∃ e ∈ rest, specNetContained e leafNet) ↔
          (∃ e ∈ n :: rest, specNetContained e leafNet)) := by
      intro hnc
      constructor
      · rintro ⟨e, he, hp⟩
        exact ⟨e, List.mem_cons_of_mem _ he, hp⟩
      · rintro ⟨e, he, hp⟩
        rcases List.mem_cons.mp he with rfl | he'
        · exact absurd hp hnc
        · exact ⟨e, he', hp⟩
    simp only [netMatch, hmask]
    by_cases hc : ipnetContains n leafNet.ip = true
    · rw [if_pos hc]
      by_cases hw : ∀ i : Nat, i < 4 → List.getD n.mask i 0 ≤ List.getD leafNet.mask i 0
      · rw [decide_eq_true hw]
        have hex : ∃ e ∈ n :: rest, specNetContained e leafNet :=
          ⟨n, List.mem_cons_self .., hcont.mp hc, hw⟩
        rw [decide_eq_true hex]
      · rw [decide_eq_false hw]
        have hnc : ¬ specNetContained n leafNet := fun hsc => hw hsc.2
        dsimp only
        rw [hrest]
        exact congrArg some (decide_eq_decide.mpr (hiffx hnc))
    · rw [if_neg hc]
      have hnc : ¬ specNetContained n leafNet := fun hsc => hc (hcont.mpr hsc.1)
      rw [hrest]
      exact congrArg some (decide_eq_decide.mpr (hiffx hnc))

theorem checkNets_len4 {roots leafNets : List IPNet}
    (hr : ∀ e ∈ roots, ValidNet4 e) (hl : ∀ n ∈ leafNets, ValidNet4 n) :
    (checkNets roots leafNets = some none ↔
      ∀ ip ∈ leafNets, ∃ e ∈ roots, specNetContained e ip) ∧
    (∀ ip, checkNets roots leafNets = some (some ip) →
      ip ∈ leafNets ∧ ¬ ∃ e ∈ roots, specNetContained e ip) ∧
    checkNets roots leafNets ≠ none := by
  induction leafNets with
  | nil => simp [checkNets]
  | cons ip rest ih =>
    have hip := hl ip (List.mem_cons_self ..)
    have hrest := ih fun n hn => hl n (List.mem_cons_of_mem _ hn)
    simp only [checkNets, netMatch_len4 hip hr]
    by_cases hex : ∃ e ∈ roots, specNetContained e ip
    · rw [decide_eq_true hex]
      dsimp only
      refine ⟨?_, ?_, hrest.2.2⟩
      · rw [hrest.1]
        constructor
        · intro h q hq
          rcases List.mem_cons.mp hq with rfl | hq'
          · exact hex
          · exact h q hq'
        · intro h q hq
          exact h q (List.mem_cons_of_mem _ hq)
      · intro q hq
        obtain ⟨hmem, hnc⟩ := hrest.2.1 q hq
        exact ⟨List.mem_cons_of_mem _ hmem, hnc⟩
    · rw [decide_eq_false hex]
      dsimp only
      refine ⟨?_, ?_, by simp⟩
      · constructor
        · intro h
          simp at h
        · intro h
          exact absurd (h ip (List.mem_cons_self ..)) hex
      · intro q hq
        obtain rfl : ip = q := by simpa using hq
        exact ⟨List.mem_cons_self .., hex⟩

/-- The claim's root-constraint conditions, written from the spec:
temporal nesting of the leaf inside the signer, group subset when the
signer restricts groups, and ip/subnet containment when the signer
restricts them. -/
def specRootConstraints (s l : NebulaCertificate) : Prop :=
  s.details.notBefore ≤ l.details.notBefore ∧
  l.details.notAfter ≤ s.details.notAfter ∧
  (s.details.invertedGroups ≠ [] →
    ∀ g ∈ l.details.groups, g ∈ s.details.invertedGroups) ∧
  (s.details.ips ≠ [] →
    ∀ ip ∈ l.details.ips, ∃ e ∈ s.details.ips, specNetContained e ip) ∧
  (s.details.subnets ≠ [] →
    ∀ sn ∈ l.details.subnets, ∃ e ∈ s.details.subnets, specNetContained e sn)

/-- What each constraint-specific error of `CheckRootConstrains`
asserts about the certificates: the error names a genuinely violated
constraint. -/
def ConstraintViolated (e : ConstraintError) (s l : NebulaCertificate) : Prop :=
  match e with
  | .expiresAfterSigner => s.details.notAfter < l.details.notAfter
  | .validBeforeSigner => l.details.notBefore < s.details.notBefore
  | .groupNotPresent g =>
      g ∈ l.details.groups ∧ g ∉ s.details.invertedGroups ∧
        s.details.invertedGroups ≠ []
  | .ipOutside ip =>
      ip ∈ l.details.ips ∧ s.details.ips ≠ [] ∧
        ¬ ∃ e ∈ s.details.ips, specNetContained e ip
  | .subnetOutside sn =>
      sn ∈ l.details.subnets ∧ s.details.subnets ≠ [] ∧
        ¬ ∃ e ∈ s.details.subnets, specNetContained e sn

theorem firstBadGroup_none {inv groups : List String}
    (h : firstBadGroup inv groups = none) : ∀ g ∈ groups, g ∈ inv := by
  intro g hg
  have hx := List.find?_eq_none.mp h g hg
  simpa using hx

theorem firstBadGroup_some {inv groups : List String} {g : String}
    (h : firstBadGroup inv groups = some g) : g ∈ groups ∧ g ∉ inv := by
  refine ⟨List.mem_of_find?_eq_some h, ?_⟩
  have hx := List.find?_some h
  simpa using hx

/-- On certificates whose ip/subnet entries are canonical 4-byte,
`CheckRootConstrains` accepts exactly the spec's conditions, every
error it returns names a violated constraint, and it never panics. -/
theorem checkRootConstrains_iff {s l : NebulaCertificate}
    (hsi : ∀ e ∈ s.details.ips, ValidNet4 e)
    (hss : ∀ e ∈ s.details.subnets, ValidNet4 e)
    (hli : ∀ e ∈ l.details.ips, ValidNet4 e)
    (hls : ∀ e ∈ l.details.subnets, ValidNet4 e) :
    (CheckRootConstrains s l = .ok ↔ specRootConstraints s l) ∧
    (∀ e, CheckRootConstrains s l = .fail e → ConstraintViolated e s l) ∧
    CheckRootConstrains s l ≠ .panics := by
  unfold CheckRootConstrains
  by_cases h1 : s.details.notAfter < l.details.notAfter
  · rw [if_pos h1]
    refine ⟨⟨fun h => absurd h (by simp), fun hsp => absurd hsp.2.1 (not_le.mpr h1)⟩,
      ?_, by simp⟩
    intro e he
    cases he
    exact h1
  · rw [if_neg h1]
    by_cases h2 : l.details.notBefore < s.details.notBefore
    · rw [if_pos h2]
      refine ⟨⟨fun h => absurd h (by simp), fun hsp => absurd hsp.1 (not_le.mpr h2)⟩,
        ?_, by simp⟩
      intro e he
      cases he
      exact h2
    · rw [if_neg h2]
      cases hg : (if s.details.invertedGroups.isEmpty then none
          else firstBadGroup s.details.invertedGroups l.details.groups) with
      | some g =>
        have hgE : s.details.invertedGroups.isEmpty = false := by
          by_contra hx
          rw [if_pos (by simpa using hx)] at hg
          exact Option.noConfusion hg
        rw [if_neg (by simp [hgE])] at hg
        obtain ⟨hgm, hgn⟩ := firstBadGroup_some hg
        have hne : s.details.invertedGroups ≠ [] := by
          simpa [List.isEmpty_iff] using hgE
        refine ⟨⟨fun h => absurd h (by simp), fun hsp => absurd (hsp.2.2.1 hne g hgm) hgn⟩,
          ?_, by simp⟩
        intro e he
        cases he
        exact ⟨hgm, hgn, hne⟩
      | none =>
        have hgok : s.details.invertedGroups ≠ [] →
            ∀ g ∈ l.details.groups, g ∈ s.details.invertedGroups := by
          intro hne
          have hgE : s.details.invertedGroups.isEmpty = false := by
            simpa [List.isEmpty_iff] using hne
          rw [if_neg (by simp [hgE])] at hg
          exact firstBadGroup_none hg
        cases hip : (if s.details.ips.isEmpty then some none
            else checkNets s.details.ips l.details.ips) with
        | none =>
          exfalso
          by_cases hiE : s.details.ips.isEmpty
          · rw [if_pos hiE] at hip
            exact Option.noConfusion hip
          · rw [if_neg hiE] at hip
            exact (checkNets_len4 hsi hli).2.2 hip
        | some o =>
          cases o with
          | some ip =>
            have hiE : s.details.ips.isEmpty = false := by
              by_contra hx
              rw [if_pos (by simpa using hx)] at hip
              simp at hip
            rw [if_neg (by simp [hiE])] at hip
            obtain ⟨hmem, hnc⟩ := (checkNets_len4 hsi hli).2.1 ip hip
            have hne : s.details.ips ≠ [] := by
              simpa [List.isEmpty_iff] using hiE
            refine ⟨⟨fun h => absurd h (by simp),
              fun hsp => absurd (hsp.2.2.2.1 hne ip hmem) hnc⟩, ?_, by simp⟩
            intro e he
            cases he
            exact ⟨hmem, hne, hnc⟩
          | none =>
            have hipok : s.details.ips ≠ [] →
                ∀ ip ∈ l.details.ips, ∃ e ∈ s.details.ips, specNetContained e ip := by
              intro hne
              have hiE : s.details.ips.isEmpty = false := by
                simpa [List.isEmpty_iff] using hne
              rw [if_neg (by simp [hiE])] at hip
              exact (checkNets_len4 hsi hli).1.mp hip
            cases hsn : (if s.details.subnets.isEmpty then some none
                else checkNets s.details.subnets l.details.subnets) with
            | none =>
              exfalso
              by_cases hsE : s.details.subnets.isEmpty
              · rw [if_pos hsE] at hsn
                exact Option.noConfusion hsn
              · rw [if_neg hsE] at hsn
                exact (checkNets_len4 hss hls).2.2 hsn
            | some o2 =>
              cases o2 with
              | some sn =>
                have hsE : s.details.subnets.isEmpty = false := by
                  by_contra hx
                  rw [if_pos (by simpa using hx)] at hsn
                  simp at hsn
                rw [if_neg (by simp [hsE])] at hsn
                obtain ⟨hmem, hnc⟩ := (checkNets_len4 hss hls).2.1 sn hsn
                have hne : s.details.subnets ≠ [] := by
                  simpa [List.isEmpty_iff] using hsE
                refine ⟨⟨fun h => absurd h (by simp),
                  fun hsp => absurd (hsp.2.2.2.2 hne sn hmem) hnc⟩, ?_, by simp⟩
                intro e he
                cases he
                exact ⟨hmem, hne, hnc⟩
              | none =>
                have hsok : s.details.subnets ≠ [] →
                    ∀ sn ∈ l.details.subnets,
                      ∃ e ∈ s.details.subnets, specNetContained e sn := by
                  intro hne
                  have hsE : s.details.subnets.isEmpty = false := by
                    simpa [List.isEmpty_iff] using hne
                  rw [if_neg (by simp [hsE])] at hsn
                  exact (checkNets_len4 hss hls).1.mp hsn
                refine ⟨⟨fun _ => ⟨not_lt.mp h2, not_lt.mp h1, hgok, hipok, hsok⟩,
                  fun _ => rfl⟩, ?_, by simp⟩
                intro e he
                exact absurd he (by simp)

/-- Under the claim's hypotheses (resolved signer, not blocklisted,
both certificates temporally valid, signature checks), `verify`
reduces to the root-constraint check. -/
theorem verify_reduces (hash : RawNebulaCertificate → List Nat)
    (sigOk : Curve → List Nat → RawNebulaCertificateDetails → List Nat → Bool)
    (t : Int) (pool : CAPool) (l s : NebulaCertificate) (caches : Caches)
    (hbl : pool.blocklist.contains (Sha256Sum hash l) = false)
    (hca : GetCAForCert pool l = .ok s)
    (hsx : Expired s t = false) (hlx : Expired l t = false)
    (hsig : CheckSignature sigOk l s.details.publicKey = true) :
    (verify hash sigOk t pool l caches false).1
      = (match CheckRootConstrains s l with
         | .ok => .ok
         | .fail e => .fail (.constraint e)
         | .panics => .panics) := by
  have h1 : isBlocklistedWithCache hash pool l caches false
      = (pool.blocklist.contains (Sha256Sum hash l), caches) := rfl
  have h2 : checkSignatureWithCache sigOk l s.details.publicKey caches false
      = (CheckSignature sigOk l s.details.publicKey, caches) := rfl
  unfold verify
  rw [h1]
  dsimp only
  rw [hbl, hca]
  dsimp only
  rw [hsx, hlx]
  simp only [Bool.false_eq_true, if_false]
  rw [h2]
  dsimp only
  rw [hsig]
  simp only [Bool.not_true, Bool.false_eq_true, if_false]
  cases CheckRootConstrains s l <;> rfl

/-- C1 (amended): for every leaf `l` and CA `s` with all ip/subnet
entries in 4-byte form, where `s` is the CA resolved for `l` in the
pool, `l` is not blocklisted, both are temporally valid at `now` and
the signature checks: `Verify` succeeds iff
`s.not_before ≤ l.not_before`, `l.not_after ≤ s.not_after`, every
group of `l` lies in `s`'s group set when non-empty, and every
ip/subnet of `l` is contained (address and mask) in some corresponding
entry of `s` when `s`'s set is non-empty; and every constraint failure
returns the error of a genuinely violated constraint. -/
theorem C1_verify_iff_root_constraints (hash : RawNebulaCertificate → List Nat)
    (sigOk : Curve → List Nat → RawNebulaCertificateDetails → List Nat → Bool)
    (t : Int) (pool : CAPool) (l s : NebulaCertificate) (caches : Caches)
    (hsi : ∀ e ∈ s.details.ips, ValidNet4 e)
    (hss : ∀ e ∈ s.details.subnets, ValidNet4 e)
    (hli : ∀ e ∈ l.details.ips, ValidNet4 e)
    (hls : ∀ e ∈ l.details.subnets, ValidNet4 e)
    (hbl : pool.blocklist.contains (Sha256Sum hash l) = false)
    (hca : GetCAForCert pool l = .ok s)
    (hsx : Expired s t = false) (hlx : Expired l t = false)
    (hsig : CheckSignature sigOk l s.details.publicKey = true) :
    ((Verify hash sigOk t pool l caches).1 = .ok ↔ specRootConstraints s l) ∧
    (∀ e, (Verify hash sigOk t pool l caches).1 = .fail (.constraint e) →
      ConstraintViolated e s l) := by
  have hred := verify_reduces hash sigOk t pool l s caches hbl hca hsx hlx hsig
  have hcrc := checkRootConstrains_iff hsi hss hli hls
  unfold Verify
  rw [hred]
  cases hc : CheckRootConstrains s l with
  | ok =>
    refine ⟨⟨fun _ => hcrc.1.mp hc, fun _ => rfl⟩, ?_⟩
    intro e he
    exact absurd he (by simp)
  | fail e0 =>
    refine ⟨⟨fun h => absurd h (by simp), fun hsp => ?_⟩, ?_⟩
    · exact absurd (hcrc.1.mpr hsp) (by simp [hc])
    · intro e he
      have : e0 = e := by
        have hx := he
        simp only [VerifyOutcome.fail.injEq, CertError.constraint.injEq] at hx
        exact hx
      subst this
      exact hcrc.2.1 e0 hc
  | panics => exact absurd hc hcrc.2.2

def wC1signerD : NebulaCertificateDetails :=
  { name := "ca", ips := [⟨[10, 0, 0, 0], [255, 0, 0, 0]⟩],
    subnets := [], groups := ["g"], notBefore := -10, notAfter := 100,
    publicKey := [1], isCA := true, issuer := [], invertedGroups := ["g"],
    curve := Curve_CURVE25519 }

def wC1signer : NebulaCertificate := { details := wC1signerD, signature := [] }

def wC1leafD : NebulaCertificateDetails :=
  { name := "leaf", ips := [⟨[10, 1, 2, 3], [255, 255, 0, 0]⟩],
    subnets := [], groups := ["g"], notBefore := 0, notAfter := 50,
    publicKey := [2], isCA := false, issuer := [97], invertedGroups := ["g"],
    curve := Curve_CURVE25519 }

def wC1leaf : NebulaCertificate := { details := wC1leafD, signature := [] }

def wC1pool : CAPool := { cas := [([97], wC1signer)], blocklist := [] }

/-- C1 witness: the amended claim instantiated at a concrete
leaf/signer pair with a satisfied ip constraint and group set. -/
theorem C1_verify_iff_root_constraints_witness :
    ((Verify hashTrivial sigOkTrue 5 wC1pool wC1leaf Caches.pristine).1 = .ok ↔
        specRootConstraints wC1signer wC1leaf) ∧
      (∀ e, (Verify hashTrivial sigOkTrue 5 wC1pool wC1leaf Caches.pristine).1
          = .fail (.constraint e) → ConstraintViolated e wC1signer wC1leaf) :=
  C1_verify_iff_root_constraints hashTrivial sigOkTrue 5 wC1pool wC1leaf wC1signer
    Caches.pristine (by decide) (by decide) (by decide) (by decide) rfl rfl
    rfl rfl rfl

def cexC1signerD : NebulaCertificateDetails :=
  { name := "ca", ips := [⟨[10, 0, 0, 0],
      [0, 0, 0, 0, 0, 0, 0, 0, 0, 0, 255, 255, 255, 0, 0, 0]⟩],
    subnets := [], groups := [], notBefore := 0, notAfter := 100,
    publicKey := [1], isCA := true, issuer := [], invertedGroups := [],
    curve := Curve_CURVE25519 }

def cexC1signer : NebulaCertificate := { details := cexC1signerD, signature := [] }

def cexC1leafD : NebulaCertificateDetails :=
  { name := "leaf", ips := [⟨[10, 1, 2, 3], [255, 255, 0, 0]⟩],
    subnets := [], groups := [], notBefore := 0, notAfter := 100,
    publicKey := [2], isCA := false, issuer := [97], invertedGroups := [],
    curve := Curve_CURVE25519 }

def cexC1leaf : NebulaCertificate := { details := cexC1leafD, signature := [] }

def cexC1pool : CAPool := { cas := [([97], cexC1signer)], blocklist := [] }

/-- C1 counterexample: a CA whose single ip entry stores its mask in
16-byte IPv4-mapped form (`::ffff:255.0.0.0`).  All of the claim's
hypotheses hold, and the leaf's single ip entry IS contained in the
signer entry (after the same IPv4 normalization `maskTo4` performs:
the signer mask is `255.0.0.0`, wider than the leaf's `255.255.0.0`,
and `10.1.2.3` lies in `10.0.0.0/8`), so the claim says Verify
succeeds — but `Verify` PANICS: the comparison loop in `maskContains`
runs to `len(caMask) = 16` while indexing the 4-byte normalized
slices, an index out of range.  The claim as stated is therefore
false; restricting to 4-byte entry forms (the amendment) repairs it. -/
theorem C1_mapped_mask_panics_cex :
    GetCAForCert cexC1pool cexC1leaf = .ok cexC1signer ∧
    cexC1pool.blocklist.contains (Sha256Sum hashTrivial cexC1leaf) = false ∧
    Expired cexC1signer 5 = false ∧ Expired cexC1leaf 5 = false ∧
    CheckSignature sigOkTrue cexC1leaf cexC1signer.details.publicKey = true ∧
    cexC1signer.details.notBefore ≤ cexC1leaf.details.notBefore ∧
    cexC1leaf.details.notAfter ≤ cexC1signer.details.notAfter ∧
    cexC1signer.details.invertedGroups = [] ∧
    cexC1signer.details.subnets = [] ∧
    maskTo4 [0, 0, 0, 0, 0, 0, 0, 0, 0, 0, 255, 255, 255, 0, 0, 0]
      = some [255, 0, 0, 0] ∧
    specNetContained ⟨[10, 0, 0, 0], [255, 0, 0, 0]⟩ ⟨[10, 1, 2, 3], [255, 255, 0, 0]⟩ ∧
    (Verify hashTrivial sigOkTrue 5 cexC1pool cexC1leaf Caches.pristine).1 = .panics := by
  refine ⟨rfl, rfl, rfl, rfl, rfl, by decide, by decide, rfl, rfl, by decide, by decide, rfl⟩

/-! ## C4 — semantic transparency of the verification caches -/

/-- The cache-state invariant maintained by every verify call: a
memoized sha sum is THE sha sum of the certificate, and a memoized
key did verify the signature. -/
def CachesValid (hash : RawNebulaCertificate → List Nat)
    (sigOk : Curve → List Nat → RawNebulaCertificateDetails → List Nat → Bool)
    (nc : NebulaCertificate) (caches : Caches) : Prop :=
  (∀ x, caches.sha = some x → x = Sha256Sum hash nc) ∧
  (∀ k, caches.sigKey = some k → CheckSignature sigOk nc k = true)

/-- A valid sha cache returns the true fingerprint. -/
theorem shaWC_fst (hash : RawNebulaCertificate → List Nat)
    (sigOk : Curve → List Nat → RawNebulaCertificateDetails → List Nat → Bool)
    (nc : NebulaCertificate) (caches : Caches) (u : Bool)
    (hv : CachesValid hash sigOk nc caches) :
    (sha256SumWithCache hash nc caches u).1 = Sha256Sum hash nc := by
  unfold sha256SumWithCache
  cases u
  · rfl
  · cases hc : caches.sha with
    | none => rfl
    | some x => exact hv.1 x hc

/-- The sha memoization preserves the invariant. -/
theorem shaWC_valid (hash : RawNebulaCertificate → List Nat)
    (sigOk : Curve → List Nat → RawNebulaCertificateDetails → List Nat → Bool)
    (nc : NebulaCertificate) (caches : Caches) (u : Bool)
    (hv : CachesValid hash sigOk nc caches) :
    CachesValid hash sigOk nc (sha256SumWithCache hash nc caches u).2 := by
  unfold sha256SumWithCache
  cases u
  · exact hv
  · cases hc : caches.sha with
    | none =>
      refine ⟨?_, hv.2⟩
      intro x hx
      simp only at hx
      simpa using hx.symm
    | some x => exact hv

/-- PROVIDED at most one key verifies the certificate's signature, a
valid key cache answers exactly as a fresh `CheckSignature` would. -/
theorem sigWC_fst (sigOk : Curve → List Nat → RawNebulaCertificateDetails → List Nat → Bool)
    (nc : NebulaCertificate) (key : List Nat) (caches : Caches) (u : Bool)
    (hv : ∀ k, caches.sigKey = some k → CheckSignature sigOk nc k = true)
    (huniq : ∀ k k', CheckSignature sigOk nc k = true →
      CheckSignature sigOk nc k' = true → k = k') :
    (checkSignatureWithCache sigOk nc key caches u).1 = CheckSignature sigOk nc key := by
  unfold checkSignatureWithCache
  cases u
  · rfl
  · cases hc : caches.sigKey with
    | none =>
      simp only [Bool.not_true, Bool.false_eq_true, if_false]
      cases hk : CheckSignature sigOk nc key <;> simp [hk]
    | some k =>
      simp only [Bool.not_true, Bool.false_eq_true, if_false]
      have hkv := hv k hc
      cases hk : CheckSignature sigOk nc key with
      | true =>
        have : k = key := huniq k key hkv hk
        subst this
        simp
      | false =>
        have : k ≠ key := fun he => by rw [he] at hkv; rw [hkv] at hk; cases hk
        simpa using this

/-- The key memoization preserves the invariant (only a verifying key
is ever stored). -/
theorem sigWC_valid (sigOk : Curve → List Nat → RawNebulaCertificateDetails → List Nat → Bool)
    (hash : RawNebulaCertificate → List Nat)
    (nc : NebulaCertificate) (key : List Nat) (caches : Caches) (u : Bool)
    (hv : CachesValid hash sigOk nc caches) :
    CachesValid hash sigOk nc (checkSignatureWithCache sigOk nc key caches u).2 := by
  unfold checkSignatureWithCache
  cases u
  · exact hv
  · cases hc : caches.sigKey with
    | some k => exact hv
    | none =>
      simp only [Bool.not_true, Bool.false_eq_true, if_false]
      cases hk : CheckSignature sigOk nc key with
      | false => exact hv
      | true =>
        refine ⟨hv.1, ?_⟩
        intro k hkx
        simp only at hkx
        obtain rfl : key = k := by simpa using hkx
        exact hk

/-- Every `verify` call — with or without the cache, against any pool
and time — preserves the cache invariant. -/
theorem verify_preserves_valid (hash : RawNebulaCertificate → List Nat)
    (sigOk : Curve → List Nat → RawNebulaCertificateDetails → List Nat → Bool)
    (t : Int) (pool : CAPool) (nc : NebulaCertificate) (caches : Caches) (u : Bool)
    (hv : CachesValid hash sigOk nc caches) :
    CachesValid hash sigOk nc (verify hash sigOk t pool nc caches u).2 := by
  have hv1 : CachesValid hash sigOk nc (isBlocklistedWithCache hash pool nc caches u).2 :=
    shaWC_valid hash sigOk nc caches u hv
  unfold verify
  cases hb : (isBlocklistedWithCache hash pool nc caches u).1
  · cases hca : GetCAForCert pool nc with
    | error e => simp only [hb, Bool.false_eq_true, if_false, hca]; exact hv1
    | ok signer =>
      cases hsx : Expired signer t
      · cases hlx : Expired nc t
        · have hv2 := sigWC_valid sigOk hash nc signer.details.publicKey
            (isBlocklistedWithCache hash pool nc caches u).2 u hv1
          cases hsv : (checkSignatureWithCache sigOk nc signer.details.publicKey
              (isBlocklistedWithCache hash pool nc caches u).2 u).1
          · simp only [hb, Bool.false_eq_true, if_false, hca, hsx, hlx, hsv,
              Bool.not_false, if_true]
            exact hv2
          · simp only [hb, Bool.false_eq_true, if_false, hca, hsx, hlx, hsv,
              Bool.not_true]
            cases hcc : CheckRootConstrains signer nc <;> simp only [hcc] <;> exact hv2
        · simp only [hb, Bool.false_eq_true, if_false, hca, hsx, hlx, if_true]
          exact hv1
      · simp only [hb, Bool.false_eq_true, if_false, hca, hsx, if_true]
        exact hv1
  · simp only [hb, if_true]
    exact hv1

/-- With a valid cache state and a key-unique signature scheme, the
cached verification returns the same outcome as the uncached one
(whose outcome does not depend on the cache state at all). -/
theorem verifyWithCache_fst_eq (hash : RawNebulaCertificate → List Nat)
    (sigOk : Curve → List Nat → RawNebulaCertificateDetails → List Nat → Bool)
    (t : Int) (pool : CAPool) (nc : NebulaCertificate) (caches caches2 : Caches)
    (hv : CachesValid hash sigOk nc caches)
    (huniq : ∀ k k', CheckSignature sigOk nc k = true →
      CheckSignature sigOk nc k' = true → k = k') :
    (verify hash sigOk t pool nc caches true).1
      = (verify hash sigOk t pool nc caches2 false).1 := by
  have hv1 : CachesValid hash sigOk nc (isBlocklistedWithCache hash pool nc caches true).2 :=
    shaWC_valid hash sigOk nc caches true hv
  have e1 : (isBlocklistedWithCache hash pool nc caches true).1
      = (isBlocklistedWithCache hash pool nc caches2 false).1 := by
    show pool.blocklist.contains (sha256SumWithCache hash nc caches true).1
      = pool.blocklist.contains (sha256SumWithCache hash nc caches2 false).1
    rw [shaWC_fst hash sigOk nc caches true hv]
    rfl
  have e2 : ∀ key, (checkSignatureWithCache sigOk nc key
        (isBlocklistedWithCache hash pool nc caches true).2 true).1
      = (checkSignatureWithCache sigOk nc key
        (isBlocklistedWithCache hash pool nc caches2 false).2 false).1 := by
    intro key
    rw [sigWC_fst sigOk nc key _ true hv1.2 huniq]
    rfl
  simp only [verify]
  rw [e1]
  cases hb : (isBlocklistedWithCache hash pool nc caches2 false).1
  · simp only [Bool.false_eq_true, if_false]
    cases hca : GetCAForCert pool nc with
    | error e => rfl
    | ok signer =>
      dsimp only
      cases hsx : Expired signer t
      · simp only [Bool.false_eq_true, if_false]
        cases hlx : Expired nc t
        · simp only [Bool.false_eq_true, if_false]
          rw [e2 signer.details.publicKey]
          cases hsv : (checkSignatureWithCache sigOk nc signer.details.publicKey
              (isBlocklistedWithCache hash pool nc caches2 false).2 false).1
          · rfl
          · simp only [Bool.not_true, Bool.false_eq_true, if_false]
            cases hcc : CheckRootConstrains signer nc <;> rfl
        · rfl
      · rfl
  · rfl

/-- The cache state produced by an arbitrary preceding sequence of
`verify` calls (each with its own pool, time and cache flag) starting
from the given state. -/
def runVerifies (hash : RawNebulaCertificate → List Nat)
    (sigOk : Curve → List Nat → RawNebulaCertificateDetails → List Nat → Bool)
    (nc : NebulaCertificate) : List (CAPool × Int × Bool) → Caches → Caches
  | [], c => c
  | (p, t, u) :: rest, c =>
    runVerifies hash sigOk nc rest (verify hash sigOk t p nc c u).2

/-- Any sequence of verify calls preserves the cache invariant. -/
theorem runVerifies_valid (hash : RawNebulaCertificate → List Nat)
    (sigOk : Curve → List Nat → RawNebulaCertificateDetails → List Nat → Bool)
    (nc : NebulaCertificate) (calls : List (CAPool × Int × Bool)) (caches : Caches)
    (hv : CachesValid hash sigOk nc caches) :
    CachesValid hash sigOk nc (runVerifies hash sigOk nc calls caches) := by
  induction calls generalizing caches with
  | nil => exact hv
  | cons step rest ih =>
    obtain ⟨p, t, u⟩ := step
    exact ih _ (verify_preserves_valid hash sigOk t p nc caches u hv)

/-- The fresh (nil-pointer) caches satisfy the invariant. -/
theorem pristine_valid (hash : RawNebulaCertificate → List Nat)
    (sigOk : Curve → List Nat → RawNebulaCertificateDetails → List Nat → Bool)
    (nc : NebulaCertificate) : CachesValid hash sigOk nc Caches.pristine := by
  unfold CachesValid
  constructor
  · intro x hx
    simp [Caches.pristine] at hx
  · intro k hk
    simp [Caches.pristine] at hk

/-- C4 (amended): PROVIDED at most one public key verifies the
certificate's signature, `VerifyWithCache` returns the same outcome as
`Verify` on the same arguments, regardless of which `VerifyWithCache`
or `Verify` calls (with any pools, times and flags) preceded it on the
unmutated certificate, and regardless of the `Verify` call's own cache
state.  The uniqueness hypothesis is what the counterexample forces:
it holds for honestly distinct keys but is not a theorem of
Ed25519/ECDSA in general. -/
theorem C4_cache_transparent_of_unique_key (hash : RawNebulaCertificate → List Nat)
    (sigOk : Curve → List Nat → RawNebulaCertificateDetails → List Nat → Bool)
    (nc : NebulaCertificate)
    (huniq : ∀ k k', CheckSignature sigOk nc k = true →
      CheckSignature sigOk nc k' = true → k = k')
    (calls : List (CAPool × Int × Bool)) (pool : CAPool) (t : Int) (caches2 : Caches) :
    (VerifyWithCache hash sigOk t pool nc (runVerifies hash sigOk nc calls
        Caches.pristine)).1
      = (Verify hash sigOk t pool nc caches2).1 := by
  unfold VerifyWithCache Verify
  exact verifyWithCache_fst_eq hash sigOk t pool nc _ caches2
    (runVerifies_valid hash sigOk nc calls Caches.pristine
      (pristine_valid hash sigOk nc)) huniq

/-- The certificate of the C4 counterexample. -/
def cexC4ncD : NebulaCertificateDetails :=
  { name := "", ips := [], subnets := [], groups := [],
    notBefore := 0, notAfter := 10, publicKey := [], isCA := false,
    issuer := [97], invertedGroups := [], curve := Curve_CURVE25519 }

def cexC4nc : NebulaCertificate := { details := cexC4ncD, signature := [] }

def cexC4caD (k : Nat) : NebulaCertificateDetails :=
  { name := "", ips := [], subnets := [], groups := [],
    notBefore := 0, notAfter := 10, publicKey := [k], isCA := true,
    issuer := [], invertedGroups := [], curve := Curve_CURVE25519 }

def cexC4ca (k : Nat) : NebulaCertificate := { details := cexC4caD k, signature := [] }

def cexC4pool (k : Nat) : CAPool := { cas := [([97], cexC4ca k)], blocklist := [] }

/-- A signature scheme under which the certificate's signature
verifies under TWO different public keys, `[1]` and `[2]` — the
situation ECDSA public-key recovery (and degenerate Ed25519 keys)
makes possible for the real crypto. -/
def cexC4sigOk : Curve → List Nat → RawNebulaCertificateDetails → List Nat → Bool :=
  fun _ key _ _ => key == [1] || key == [2]

/-- The cache state after one successful `VerifyWithCache` against the
pool whose CA holds key `[1]`. -/
def cexC4caches : Caches :=
  (VerifyWithCache hashTrivial cexC4sigOk 5 (cexC4pool 1) cexC4nc Caches.pristine).2

/-- C4 counterexample: the certificate's signature checks under both
`[1]` and `[2]`.  After a successful `VerifyWithCache` against the
pool whose CA key is `[1]` (which memoizes `[1]`), a `VerifyWithCache`
against the pool whose CA key is `[2]` returns `SignatureMismatch` —
the cache compares raw key bytes instead of re-verifying — while
`Verify` on the very same arguments succeeds.  The certificate was
never mutated, so the claim's unconditional transparency is false. -/
theorem C4_cache_not_transparent_cex :
    CheckSignature cexC4sigOk cexC4nc [1] = true ∧
    CheckSignature cexC4sigOk cexC4nc [2] = true ∧
    (VerifyWithCache hashTrivial cexC4sigOk 5 (cexC4pool 1) cexC4nc Caches.pristine).1
      = .ok ∧
    cexC4caches.sigKey = some [1] ∧
    (VerifyWithCache hashTrivial cexC4sigOk 5 (cexC4pool 2) cexC4nc cexC4caches).1
      = .fail .signatureMismatch ∧
    (Verify hashTrivial cexC4sigOk 5 (cexC4pool 2) cexC4nc cexC4caches).1 = .ok := by
  exact ⟨rfl, rfl, rfl, rfl, rfl, rfl⟩

def wC4pool : CAPool := { cas := [([97], cexC4ca 1)], blocklist := [] }

/-- A key-unique signature scheme (only `[1]` verifies) for the C4
witness. -/
def wC4sigOk : Curve → List Nat → RawNebulaCertificateDetails → List Nat → Bool :=
  fun _ key _ _ => key == [1]

/-- C4 witness: the amended claim at a concrete certificate, pool and
key-unique scheme, after one preceding cached verification. -/
theorem C4_cache_transparent_of_unique_key_witness :
    (VerifyWithCache hashTrivial wC4sigOk 5 wC4pool cexC4nc
        (runVerifies hashTrivial wC4sigOk cexC4nc [(wC4pool, 5, true)]
          Caches.pristine)).1
      = (Verify hashTrivial wC4sigOk 5 wC4pool cexC4nc Caches.pristine).1 := by
  refine C4_cache_transparent_of_unique_key hashTrivial wC4sigOk cexC4nc ?_
    [(wC4pool, 5, true)] wC4pool 5 Caches.pristine
  intro k k' h h'
  simp only [CheckSignature, wC4sigOk, cexC4nc, cexC4ncD] at h h'
  simp at h h'
  rw [h, h']

end EventHorizon
